import Mathlib

/-!
# Verification of the Paddle primitive VJP rule library

Shallow embedding of `paddle/fluid/primitive/rule/vjp/details.h`.

Tensors are modelled concretely as a shape (list of extents), an element
datatype tag, and row-major rational data.  The C++ rules are templates
over a primitive backend `T`; the backend-supplied transcendental
functions and `math.h` constants are collected in a `Backend` record and
every embedded rule is parametric over it, mirroring `template <typename T>`.

The elementwise / reduction / reshape / transpose primitives
(`primitive.h`) and the shared shape utilities (`utils.h`:
`get_reduce_dims`, `get_unsqueeze_dims`) are not part of the reviewed
sources; they are modelled from the specification (each such definition
carries a `Modelled from the spec:` doc comment).  The fail-fast shape
preconditions of the backend are modelled by totalising the operations
(e.g. `reshapeT` just replaces the shape) and stating well-formedness
(`wellFormed`) explicitly in the theorems.

A nullable output-slot pointer is modelled as a `Bool` flag ("the caller
passed a non-null pointer") and the value a rule writes through
`set_output`/`by_pass` into that slot as an `Option Tensor`: `none` means
the slot was left untouched, `some v` means the rule invoked
`set_output`/`by_pass` on the slot (for a rule that does not guard on the
pointer this models a write through a null pointer).
-/

/-- Element datatypes.  Only the distinctions the rules test for matter:
the two reduced-precision float kinds, full precision, and the boolean
dtype produced by comparison primitives. -/
inductive DType where
  | f16 : DType
  | bf16 : DType
  | f32 : DType
  | f64 : DType
  | boolDT : DType
deriving DecidableEq, Repr

/-- A tensor value: ordered shape, element dtype, row-major data. -/
structure Tensor where
  shape : List Nat
  dtype : DType
  data : List Rat
deriving DecidableEq, Repr

/-- A tensor is well formed when its flattened data has exactly as many
elements as its shape prescribes. -/
def wellFormed (t : Tensor) : Prop := t.data.length = t.shape.prod

instance : DecidablePred wellFormed := fun t => by
  unfold wellFormed; infer_instance

/-- The default-constructed `Tensor()` of the C++ sources. -/
def defaultTensor : Tensor := ⟨[], DType.f32, []⟩

/-- Backend-supplied scalar primitives and `math.h` constants: the
embedding is parametric over them exactly as the C++ rules are parametric
over the primitive backend `T`. -/
structure Backend where
  sinF : Rat → Rat
  cosF : Rat → Rat
  tanhF : Rat → Rat
  erfF : Rat → Rat
  expF : Rat → Rat
  powF : Rat → Rat → Rat
  msqrt2 : Rat
  m2sqrtpi : Rat
  msqrt12 : Rat

/-- A trivial backend instance, used to evaluate structural properties at
concrete inputs. -/
def trivialBackend : Backend :=
  ⟨fun v => v, fun v => v, fun v => v, fun v => v, fun v => v, fun v _ => v, 1, 1, 1⟩

/-! ## Row-major index enumeration -/

/-- All ways to prepend one of the coordinates `is` to one of the index
tails `tails`, in row-major order. -/
def crossCons (is : List Nat) (tails : List (List Nat)) : List (List Nat) :=
  match is with
  | [] => []
  | i :: rest => tails.map (fun t => i :: t) ++ crossCons rest tails

/-- All multi-indices of a shape, enumerated in row-major order. -/
def allIndices : List Nat → List (List Nat)
  | [] => [[]]
  | d :: s => crossCons (List.range d) (allIndices s)

/-- Row-major flattening of a multi-index. -/
def flatten : List Nat → List Nat → Nat
  | _ :: ds, i :: is => i * ds.prod + flatten ds is
  | _, _ => 0

/-- Project a (possibly higher-rank) multi-index onto a tensor's own
index space following the standard right-aligned broadcast rule: drop
leading coordinates, and read coordinate 0 along any axis of extent 1. -/
def projIdx (shape idx : List Nat) : List Nat :=
  ((shape.zip (idx.drop (idx.length - shape.length))).map
    (fun (p : Nat × Nat) => if p.1 = 1 then 0 else p.2))

/-- Read a tensor at a (broadcast) multi-index. -/
def tensorGet (t : Tensor) (idx : List Nat) : Rat :=
  t.data.getD (flatten t.shape (projIdx t.shape idx)) 0

/-! ## Primitive tensor operations

Modelled from the spec: the rules compose an external tensor-execution
layer providing elementwise arithmetic with right-aligned NumPy
broadcasting, reductions, reshape, expand, transpose and scatter/gather
(spec §2, §3, §4.1, §9). -/

/-- Modelled from the spec: right-aligned broadcast result shape of two
shapes (spec §3 "Broadcast"). -/
def broadcastShape (a b : List Nat) : List Nat :=
  let r := max a.length b.length
  ((List.replicate (r - a.length) 1 ++ a).zip
    (List.replicate (r - b.length) 1 ++ b)).map (fun (p : Nat × Nat) => max p.1 p.2)

/-- Modelled from the spec: unary elementwise map (shape and dtype
preserved). -/
def ewMap (f : Rat → Rat) (t : Tensor) : Tensor :=
  ⟨t.shape, t.dtype, t.data.map f⟩

/-- Modelled from the spec: binary elementwise operation with
right-aligned broadcasting; the result carries the left operand's dtype. -/
def ew2 (f : Rat → Rat → Rat) (a b : Tensor) : Tensor :=
  let s := broadcastShape a.shape b.shape
  ⟨s, a.dtype, (allIndices s).map (fun i => f (tensorGet a i) (tensorGet b i))⟩

def addT (a b : Tensor) : Tensor := ew2 (· + ·) a b
def subT (a b : Tensor) : Tensor := ew2 (· - ·) a b
def mulT (a b : Tensor) : Tensor := ew2 (· * ·) a b
def divT (a b : Tensor) : Tensor := ew2 (· / ·) a b
def negT (t : Tensor) : Tensor := ewMap (fun v => -v) t

/-- Modelled from the spec: `cast` converts the element dtype (float
values are preserved in the rational model). -/
def castT (t : Tensor) (dt : DType) : Tensor := ⟨t.shape, dt, t.data⟩

/-- Modelled from the spec: `full(shape, v, dtype)` builds a constant
tensor. -/
def fullT (shape : List Nat) (v : Rat) (dt : DType) : Tensor :=
  ⟨shape, dt, List.replicate shape.prod v⟩

/-- Modelled from the spec: `reshape` reinterprets the data under a new
shape; the backend's fail-fast element-count precondition is stated via
`wellFormed` in the theorems. -/
def reshapeT (t : Tensor) (s : List Nat) : Tensor := ⟨s, t.dtype, t.data⟩

/-- Modelled from the spec: `expand` broadcasts a tensor up to a target
shape. -/
def expandT (t : Tensor) (s : List Nat) : Tensor :=
  ⟨s, t.dtype, (allIndices s).map (tensorGet t)⟩

/-- Modelled from the spec: `scale(x, s, bias, bias_after_scale)` is
`s*x + bias` when `bias_after_scale` and `s*(x + bias)` otherwise. -/
def scaleT (t : Tensor) (s bias : Rat) (biasAfter : Bool) : Tensor :=
  ewMap (fun v => if biasAfter then s * v + bias else s * (v + bias)) t

/-- Modelled from the spec: elementwise sign. -/
def signT (t : Tensor) : Tensor :=
  ewMap (fun v => if 0 < v then 1 else if v < 0 then -1 else 0) t

/-- Modelled from the spec: `by_pass` copies the tensor to the output
slot verbatim. -/
def by_passT (t : Tensor) : Tensor := t

/-- Modelled from the spec: comparison primitives produce boolean (0/1)
tensors. -/
def greater_thanT (a b : Tensor) : Tensor :=
  castT (ew2 (fun u v => if v < u then 1 else 0) a b) DType.boolDT

def less_thanT (a b : Tensor) : Tensor :=
  castT (ew2 (fun u v => if u < v then 1 else 0) a b) DType.boolDT

def less_equalT (a b : Tensor) : Tensor :=
  castT (ew2 (fun u v => if u ≤ v then 1 else 0) a b) DType.boolDT

def greater_equalT (a b : Tensor) : Tensor :=
  castT (ew2 (fun u v => if v ≤ u then 1 else 0) a b) DType.boolDT

def equalT (a b : Tensor) : Tensor :=
  castT (ew2 (fun u v => if u = v then 1 else 0) a b) DType.boolDT

/-- Modelled from the spec: `where(cond, a, b)` selects `a` where the
boolean tensor is nonzero, else `b`, under broadcasting. -/
def whereT (cond a b : Tensor) : Tensor :=
  let s := broadcastShape cond.shape (broadcastShape a.shape b.shape)
  ⟨s, a.dtype,
    (allIndices s).map
      (fun i => if tensorGet cond i ≠ 0 then tensorGet a i else tensorGet b i)⟩

/-! ### Reductions -/

/-- The shape with the reduced axes kept as extent 1 (index-tracking aux). -/
def keepShapeAux : Nat → List Nat → List Nat → List Nat
  | _, [], _ => []
  | i, d :: s, axes => (if i ∈ axes then 1 else d) :: keepShapeAux (i + 1) s axes

/-- The extents along the reduced axes only (others collapsed to 1). -/
def redShapeAux : Nat → List Nat → List Nat → List Nat
  | _, [], _ => []
  | i, d :: s, axes => (if i ∈ axes then d else 1) :: redShapeAux (i + 1) s axes

/-- The shape with the axes in `axes` removed (index-tracking aux). -/
def removeAxesAux : Nat → List Nat → List Nat → List Nat
  | _, [], _ => []
  | i, d :: s, axes => (if i ∈ axes then [] else [d]) ++ removeAxesAux (i + 1) s axes

def removeAxes (s axes : List Nat) : List Nat := removeAxesAux 0 s axes

/-- Modelled from the spec: sum reduction over an axis set with the
reduced axes kept as size-1 (`keepdim = true`); the result is cast to the
requested dtype. -/
def sumKeep (t : Tensor) (axes : List Nat) (dt : DType) : Tensor :=
  let ks := keepShapeAux 0 t.shape axes
  let rs := redShapeAux 0 t.shape axes
  ⟨ks, dt,
    (allIndices ks).map
      (fun oi => ((allIndices rs).map (fun ri => tensorGet t (List.zipWith (· + ·) oi ri))).sum)⟩

/-- Modelled from the spec: `x.sum(axes, dtype, keepdim)`; with
`keepdim = false` the reduced axes are removed from the shape. -/
def sumAt (t : Tensor) (axes : List Nat) (dt : DType) (keepdim : Bool) : Tensor :=
  if keepdim then sumKeep t axes dt
  else ⟨removeAxes t.shape axes, dt, (sumKeep t axes dt).data⟩

/-- Modelled from the spec: `tile` repeats the tensor along each axis;
shapes are right-aligned with size-1 padding. -/
def tileT (t : Tensor) (reps : List Nat) : Tensor :=
  let r := max t.shape.length reps.length
  let s := List.replicate (r - t.shape.length) 1 ++ t.shape
  let rp := List.replicate (r - reps.length) 1 ++ reps
  let outS := (s.zip rp).map (fun p => p.1 * p.2)
  ⟨outS, t.dtype,
    (allIndices outS).map
      (fun i => t.data.getD (flatten s (List.zipWith (fun c d => c % d) i s)) 0)⟩

/-! ### Permutations and transpose -/

/-- First index of `a` in a list of naturals (length of the list when
absent). -/
def idxOfN (a : Nat) : List Nat → Nat
  | [] => 0
  | b :: l => if b = a then 0 else idxOfN a l + 1

/-- Normalise one permutation entry: a negative axis counts from the
end. -/
def normEntry (r : Nat) (i : Int) : Nat := (if i < 0 then i + r else i).toNat

def normPerm (r : Nat) (p : List Int) : List Nat := p.map (normEntry r)

/-- Apply a permutation to a coordinate list: entry `k` of the result is
entry `q k` of the input. -/
def applyPermN (q : List Nat) (l : List Nat) : List Nat :=
  q.map (fun j => l.getD j 0)

/-- The inverse of a permutation of `range q.length`. -/
def invPerm (q : List Nat) : List Nat :=
  (List.range q.length).map (fun a => idxOfN a q)

/-- Modelled from the spec: `transpose(x, perm)` permutes the axes;
output axis `k` carries input axis `perm k` (negative entries normalised
by adding the rank). -/
def transposeT (t : Tensor) (perm : List Int) : Tensor :=
  let r := t.shape.length
  let q := normPerm r perm
  let outS := applyPermN q t.shape
  ⟨outS, t.dtype,
    (allIndices outS).map
      (fun oi => t.data.getD (flatten t.shape (applyPermN (invPerm q) oi)) 0)⟩

/-! ### Scatter-style primitives -/

/-- Modelled from the spec: `scatter(x, index, updates, overwrite)` along
the leading axis; with `overwrite = false` the indexed rows are reset and
the updates accumulated into them. -/
def scatterT (base index src : Tensor) (overwrite : Bool) : Tensor :=
  let rowSize := base.shape.tail.prod
  let idxs := index.data.map (fun q => q.num.toNat)
  let cleared :=
    if overwrite then base.data
    else idxs.foldl
      (fun d iv => (List.range rowSize).foldl (fun d2 j => d2.set (iv * rowSize + j) 0) d)
      base.data
  let written := idxs.enum.foldl
    (fun d p =>
      (List.range rowSize).foldl
        (fun d2 j =>
          let pos := p.2 * rowSize + j
          let v := src.data.getD (p.1 * rowSize + j) 0
          d2.set pos (if overwrite then v else d2.getD pos 0 + v))
        d)
    cleared
  ⟨base.shape, base.dtype, written⟩

/-- Modelled from the spec: `put_along_axis(arr, indices, src, axis)`
writes `src` values into `arr` at the positions named by `indices` along
`axis`. -/
def put_along_axisT (arr indices src : Tensor) (axis : Int) : Tensor :=
  let r := arr.shape.length
  let ax := normEntry r axis
  ⟨arr.shape, arr.dtype,
    (allIndices indices.shape).enum.foldl
      (fun d p =>
        let iv := (indices.data.getD (flatten indices.shape p.2) 0).num.toNat
        let pos := flatten arr.shape (p.2.set ax iv)
        d.set pos (src.data.getD (flatten indices.shape p.2) 0))
      arr.data⟩

/-! ### Shape utilities of `paddle/fluid/primitive/utils/utils.h`
(not under the reviewed sources; modelled from the spec §4.1 and §4.3). -/

/-- Aligned part of the broadcast-reduce resolver: axis `i` is reduced
when the target extent is 1 and the source extent is not. -/
def reduceAxesAligned : Nat → List Nat → List Nat → List Nat
  | _, _, [] => []
  | _, [], _ => []
  | i, f :: fs, t :: ts =>
      (if t = 1 ∧ f ≠ 1 then [i] else []) ++ reduceAxesAligned (i + 1) fs ts

/-- Modelled from the spec (§4.1): the broadcast-reduce resolver
`reduce_axes(from_shape, to_shape)`.  `to_shape` is right-aligned against
`from_shape`; the leading axes present only in `from_shape` are always
reduced, and an aligned axis is reduced when the `to` extent is 1 and the
`from` extent is not. -/
def reduceAxes (fromS toS : List Nat) : List Nat :=
  let bat := fromS.length - toS.length
  List.range bat ++ reduceAxesAligned bat (fromS.drop bat) toS

/-- Modelled from the spec (§4.1, §4.3): `get_reduce_dims(target, other)`
resolves the axes that reduce a gradient of the broadcast shape of the
two operands back to `target`. -/
def get_reduce_dims (target other : List Nat) : List Nat :=
  reduceAxes (broadcastShape target other) target

/-- Modelled from the spec (§4.1): `get_reduce_dims_from_out(dout, in)`
resolves the axes that reduce a gradient of shape `dout` back to `in`. -/
def get_reduce_dims_from_out (doutS inS : List Nat) : List Nat :=
  reduceAxes doutS inS

/-- Fuel-indexed worker for `get_unsqueeze_dims`. -/
def unsqueezeAux (axes : List Nat) : Nat → Nat → List Nat → List Nat
  | _, 0, _ => []
  | i, n + 1, ds =>
      if i ∈ axes then 1 :: unsqueezeAux axes (i + 1) n ds
      else ds.headD 1 :: unsqueezeAux axes (i + 1) n ds.tail

/-- Modelled from the spec (§4.3): `get_unsqueeze_dims(t, axes)` rebuilds
the pre-reduction shape by reinserting size-1 axes at the positions that
were dropped when `keepdim = false`. -/
def get_unsqueeze_dims (t : Tensor) (axes : List Nat) : List Nat :=
  unsqueezeAux axes 0 (t.shape.length + axes.length) t.shape

/-- Spec §3: two shapes are broadcast-compatible with `toS` broadcasting
up to `fromS`: right-aligned, every aligned extent of `toS` equals the
`fromS` extent or is 1, and `fromS` has at least the rank of `toS`. -/
def bcastTo (toS fromS : List Nat) : Prop :=
  toS.length ≤ fromS.length ∧
    ∀ p ∈ (fromS.drop (fromS.length - toS.length)).zip toS, p.2 = p.1 ∨ p.2 = 1

instance (toS fromS : List Nat) : Decidable (bcastTo toS fromS) := by
  unfold bcastTo; infer_instance

/-! ## Gradient rules (transcribed from
`paddle/fluid/primitive/rule/vjp/details.h`)

Each `Bool` argument named after an output pointer models "the caller
passed a non-null pointer for this slot"; the corresponding `Option
Tensor` result is the value written into the slot (`none` = untouched). -/

/-- Rule `abs_grad` (details.h:32-38). -/
def abs_grad (x out_grad : Tensor) (x_grad : Bool) : Option Tensor :=
  if x_grad then
    let sign_tmp := signT x
    some (mulT out_grad sign_tmp)
  else none

/-- Rule `sin_grad` (details.h:327-331).  Note: the source has no null check on
`x_grad`; the computation and the `set_output` call happen
unconditionally. -/
def sin_grad (K : Backend) (x out_grad : Tensor) (x_grad : Bool) : Option Tensor :=
  let x_grad_tmp := mulT (ewMap K.cosF x) out_grad
  some x_grad_tmp

/-- Rule `cos_grad` (details.h:333-337).  Same remark as `sin_grad`: no null
check. -/
def cos_grad (K : Backend) (x out_grad : Tensor) (x_grad : Bool) : Option Tensor :=
  let x_grad_tmp := mulT (negT (ewMap K.sinF x)) out_grad
  some x_grad_tmp

/-- Rule `gather_grad` (details.h:883-927).  Note: the source has no null
check on `grad_x`; the whole permute/scatter/permute-back pipeline runs
and `set_output` is called unconditionally. -/
def gather_grad (x index out_grad : Tensor) (axis : Int) (grad_x : Bool) : Option Tensor :=
  let zero_tensor := fullT x.shape 0 x.dtype
  let axis_value := axis
  let tmp_perm : List Int :=
    axis_value ::
      ((List.range x.shape.length).filterMap
        (fun i => if (i : Int) = axis_value then none else some (i : Int)))
  let reverse_perm :=
    (List.range tmp_perm.length).foldl
      (fun rp i =>
        let pi := tmp_perm.getD i 0
        if 0 ≤ pi then rp.set pi.toNat (i : Int)
        else rp.set (pi + tmp_perm.length).toNat (i : Int))
      tmp_perm
  let tmp_zero_x_grad :=
    if zero_tensor.shape.length > 0 then transposeT zero_tensor tmp_perm else zero_tensor
  let tmp_out_grad :=
    if out_grad.shape.length > 0 then transposeT out_grad tmp_perm else out_grad
  let tmp_grad_x := scatterT tmp_zero_x_grad index tmp_out_grad false
  let tmp_grad_x_transposed :=
    if tmp_grad_x.shape.length > 0 then transposeT tmp_grad_x reverse_perm else tmp_grad_x
  some tmp_grad_x_transposed

/-- Rule `divide_grad` (details.h:62-108).  Result is `(dx slot, dy slot)`. -/
def divide_grad (K : Backend) (x y out out_grad : Tensor) (axis : Int)
    (dx dy : Bool) : Option Tensor × Option Tensor :=
  let dyv : Option Tensor :=
    if dy then
      let dy_res := mulT (negT (divT x (ewMap (fun v => K.powF v 2) y))) out_grad
      if x.shape ≠ y.shape then
        let reduce_dim := get_reduce_dims y.shape x.shape
        if reduce_dim = [] then some dy_res
        else some (reshapeT (sumAt dy_res reduce_dim y.dtype false) y.shape)
      else some dy_res
    else none
  let dxv : Option Tensor :=
    if dx then
      let one_tensor := fullT y.shape 1 y.dtype
      let dx_res := mulT (divT one_tensor y) out_grad
      if y.shape ≠ x.shape then
        let reduce_dim := get_reduce_dims x.shape y.shape
        if reduce_dim = [] then some dx_res
        else some (reshapeT (sumAt dx_res reduce_dim x.dtype false) x.shape)
      else some dx_res
    else none
  (dxv, dyv)

/-- Rule `add_grad` (details.h:389-429).  Result is `(dx slot, dy slot)`. -/
def add_grad (x y out_grad : Tensor) (axis : Int)
    (dx dy : Bool) : Option Tensor × Option Tensor :=
  let dyv : Option Tensor :=
    if dy then
      if x.shape ≠ y.shape then
        let reduce_dim := get_reduce_dims y.shape x.shape
        if reduce_dim = [] then some (by_passT out_grad)
        else some (reshapeT (sumAt out_grad reduce_dim y.dtype false) y.shape)
      else some (by_passT out_grad)
    else none
  let dxv : Option Tensor :=
    if dx then
      if y.shape ≠ x.shape then
        let reduce_dim := get_reduce_dims x.shape y.shape
        if reduce_dim = [] then some (by_passT out_grad)
        else some (reshapeT (sumAt out_grad reduce_dim x.dtype false) x.shape)
      else some (by_passT out_grad)
    else none
  (dxv, dyv)

/-- Rule `sum_grad` (details.h:119-165).  The `reduce_all` parameter is
locally overwritten before first use, exactly as in the source
(`reduce_all = false;` then recomputed from the axis cardinality). -/
def sum_grad (x out_grad : Tensor) (axis : List Int)
    (keepdim reduce_all : Bool) (x_grad : Bool) : Option Tensor :=
  if !x_grad then none
  else
    let x_dim := x.shape
    let axis_size := axis.length
    let x_dim_size := x_dim.length
    let reduce_all := false
    let reduce_all := reduce_all || axis_size == 0 || axis_size == x_dim_size
    let x_grad_tmp :=
      if x_dim_size == 1 then expandT out_grad x_dim
      else
        if !keepdim then
          let axis_ : List Int :=
            if reduce_all then (List.range x_dim_size).map (fun i => (i : Int))
            else axis.map (fun a => if a < 0 then a + x_dim_size else a)
          let out_grad_shape := get_unsqueeze_dims out_grad (axis_.map Int.toNat)
          let out_grad_ := reshapeT out_grad out_grad_shape
          expandT out_grad_ x_dim
        else expandT out_grad x_dim
    some x_grad_tmp

/-- Rule `gelu_grad` (details.h:167-239). -/
def gelu_grad (K : Backend) (x out_grad : Tensor) (approximate : Bool)
    (x_grad : Bool) : Option Tensor :=
  if !x_grad then none
  else
    if x.dtype = DType.f16 ∨ x.dtype = DType.bf16 then
      let promoted_x := castT x DType.f32
      let promoted_out_grad := castT out_grad DType.f32
      if approximate then
        let kbeta := K.msqrt2 * K.m2sqrtpi * (1 / 2 : Rat)
        let kkappa : Rat := 44715 / 1000000
        let x_sq := mulT promoted_x promoted_x
        let x_cube := mulT x_sq promoted_x
        let inner := ewMap (fun v => kbeta * v) (addT promoted_x (ewMap (fun v => kkappa * v) x_cube))
        let tanh_inner := ewMap K.tanhF inner
        let left := scaleT promoted_x (1 / 2) 0 true
        let right := scaleT tanh_inner 1 1 true
        let left_derivative := scaleT right (1 / 2) 0 true
        let tanh_derivative := scaleT (mulT tanh_inner tanh_inner) (-1) 1 true
        let inner_derivative := ewMap (fun v => kbeta * v) (scaleT (ewMap (fun v => 3 * kkappa * v) x_sq) 1 1 true)
        let right_derivative := mulT (mulT left tanh_derivative) inner_derivative
        some (castT (mulT promoted_out_grad (addT left_derivative right_derivative)) x.dtype)
      else
        let kalpha := K.msqrt12
        let kbeta := K.m2sqrtpi * K.msqrt12 * (1 / 2 : Rat)
        let cdf := scaleT (scaleT (ewMap K.erfF (ewMap (fun v => kalpha * v) promoted_x)) 1 1 true) (1 / 2) 0 true
        let pdf := ewMap (fun v => kbeta * v) (ewMap K.expF (scaleT (mulT promoted_x promoted_x) (-(1 / 2)) 0 true))
        some (castT (mulT promoted_out_grad (addT cdf (mulT promoted_x pdf))) x.dtype)
    else
      if approximate then
        let kBeta := K.msqrt2 * K.m2sqrtpi * (1 / 2 : Rat)
        let kKappa : Rat := 44715 / 1000000
        let x_sq := mulT x x
        let x_cube := mulT x_sq x
        let inner := ewMap (fun v => kBeta * v) (addT x (ewMap (fun v => kKappa * v) x_cube))
        let tanh_inner := ewMap K.tanhF inner
        let left := scaleT x (1 / 2) 0 true
        let right := scaleT tanh_inner 1 1 true
        let left_derivative := scaleT right (1 / 2) 0 true
        let tanh_derivative := scaleT (mulT tanh_inner tanh_inner) (-1) 1 true
        let inner_derivative := ewMap (fun v => kBeta * v) (scaleT (ewMap (fun v => 3 * kKappa * v) x_sq) 1 1 true)
        let right_derivative := mulT (mulT left tanh_derivative) inner_derivative
        some (mulT out_grad (addT left_derivative right_derivative))
      else
        let kAlpha := K.msqrt12
        let kBeta := K.m2sqrtpi * K.msqrt12 * (1 / 2 : Rat)
        let cdf := scaleT (scaleT (ewMap K.erfF (ewMap (fun v => kAlpha * v) x)) 1 1 true) (1 / 2) 0 true
        let pdf := ewMap (fun v => kBeta * v) (ewMap K.expF (scaleT (mulT x x) (-(1 / 2)) 0 true))
        some (mulT out_grad (addT cdf (mulT x pdf)))

/-- The inverse-permutation loop of `transpose_grad` (details.h:276-284): start
from a copy of `perm` and store `i` at position `perm i` (negative entries
shifted by the rank). -/
def reversePerm (perm : List Int) : List Int :=
  (List.range perm.length).foldl
    (fun rp i =>
      let pi := perm.getD i 0
      if 0 ≤ pi then rp.set pi.toNat (i : Int)
      else rp.set (pi + perm.length).toNat (i : Int))
    perm

/-- Rule `transpose_grad` (details.h:271-288). -/
def transpose_grad (grad_out : Tensor) (perm : List Int) (grad_x : Bool) : Option Tensor :=
  if grad_x then
    let reverse_perm := reversePerm perm
    some (transposeT grad_out reverse_perm)
  else none

/-- Rule `layer_norm_grad` (details.h:567-675).  Result is
`(x_grad, scale_grad, bias_grad)`. -/
def layer_norm_grad (K : Backend) (x : Tensor) (scale bias : Option Tensor)
    (mean variance out_grad : Tensor) (epsilon : Rat) (begin_norm_axis : Nat)
    (x_grad scale_grad bias_grad : Bool) :
    Option Tensor × Option Tensor × Option Tensor :=
  let x_dims := x.shape
  let shape_1 := (x_dims.take begin_norm_axis).prod
  let shape_2 := (x_dims.drop begin_norm_axis).prod
  let x_cast0 := reshapeT x [shape_1, shape_2]
  let out_grad_cast0 := reshapeT out_grad [shape_1, shape_2]
  let mean_ := reshapeT mean [shape_1, 1]
  let variance_ := reshapeT variance [shape_1, 1]
  let scale_cast0 := scale.map (fun sp => reshapeT sp [1, shape_2])
  let x_cast :=
    if x.dtype = DType.f16 ∨ x.dtype = DType.bf16 then castT x_cast0 DType.f32 else x_cast0
  let out_grad_cast :=
    if x.dtype = DType.f16 ∨ x.dtype = DType.bf16 then castT out_grad_cast0 DType.f32
    else out_grad_cast0
  let scale_cast :=
    if x.dtype = DType.f16 ∨ x.dtype = DType.bf16 then scale_cast0.map (fun sc => castT sc DType.f32)
    else scale_cast0
  let x_sub_mean := subT x_cast mean_
  let tmp := ewMap (fun v => 1 / (v + epsilon)) variance_
  let sqrt_var_1 := ew2 K.powF tmp (fullT tmp.shape (1 / 2) tmp.dtype)
  let x_sub_mean_mul_sqrt_var_1 := mulT x_sub_mean sqrt_var_1
  let xg : Option Tensor :=
    if x_grad then
      let out_grad_scale :=
        match scale_cast with
        | some sc => mulT out_grad_cast sc
        | none => out_grad_cast
      let dx_end := mulT sqrt_var_1 out_grad_scale
      let d_mean := sumAt dx_end [1] x_cast.dtype true
      let d_std_1 := sumAt (mulT (mulT tmp x_sub_mean) out_grad_scale) [1] x_cast.dtype true
      let d_std := mulT d_std_1 x_sub_mean_mul_sqrt_var_1
      let d_mean_d_std := ewMap (fun v => (1 / (shape_2 : Rat)) * v) (addT d_mean d_std)
      let x_grad_tmp0 := subT dx_end d_mean_d_std
      let x_grad_tmp1 := reshapeT x_grad_tmp0 x.shape
      let x_grad_tmp :=
        if x.dtype = DType.f16 ∨ x.dtype = DType.bf16 then castT x_grad_tmp1 x.dtype
        else x_grad_tmp1
      some x_grad_tmp
    else none
  let sg : Option Tensor :=
    if scale_grad then
      match scale with
      | some sp =>
        let scale_grad_tmp0 :=
          sumAt (mulT x_sub_mean_mul_sqrt_var_1 out_grad_cast) [0] x_cast.dtype true
        let scale_grad_tmp1 := reshapeT scale_grad_tmp0 sp.shape
        let scale_grad_tmp :=
          if sp.dtype = DType.f16 ∨ sp.dtype = DType.bf16 then castT scale_grad_tmp1 sp.dtype
          else scale_grad_tmp1
        some scale_grad_tmp
      | none => none
    else none
  let bg : Option Tensor :=
    if bias_grad then
      match bias with
      | some bp =>
        let bias_grad_tmp0 := sumAt out_grad_cast [0] x_cast.dtype true
        let bias_grad_tmp1 := reshapeT bias_grad_tmp0 bp.shape
        let bias_grad_tmp :=
          if bp.dtype = DType.f16 ∨ bp.dtype = DType.bf16 then castT bias_grad_tmp1 bp.dtype
          else bias_grad_tmp1
        some bias_grad_tmp
      | none => none
    else none
  (xg, sg, bg)

/-- Rule `dropout_grad` (details.h:677-704). -/
def dropout_grad (mask out_grad : Tensor) (p : Rat) (is_test : Bool)
    (mode : String) (x_grad : Bool) : Option Tensor :=
  if !x_grad then none
  else
    if is_test then
      if mode = "upscale_in_train" then some (by_passT out_grad)
      else some (ewMap (fun v => v * (1 - p)) out_grad)
    else
      if mode = "upscale_in_train" then
        if p = 1 then some (scaleT out_grad 0 0 true)
        else some (scaleT (mulT out_grad (castT mask out_grad.dtype)) (1 / (1 - p)) 0 true)
      else some (mulT out_grad (castT mask out_grad.dtype))

/-- Rule `exp_grad` (details.h:750-763). -/
def exp_grad (out out_grad : Tensor) (x_grad : Bool) : Option Tensor :=
  if x_grad then
    if out.dtype = DType.f16 ∨ out.dtype = DType.bf16 then
      let out_promote := castT out DType.f32
      let out_grad_promote := castT out_grad DType.f32
      some (castT (mulT out_promote out_grad_promote) out.dtype)
    else some (mulT out_grad out)
  else none

/-- Rule `silu_grad` (details.h:774-796). -/
def silu_grad (K : Backend) (x out out_grad : Tensor) (x_grad : Bool) : Option Tensor :=
  if x_grad then
    let org_dtype := x.dtype
    if org_dtype = DType.f16 ∨ org_dtype = DType.bf16 then
      let x_cast := castT x DType.f32
      let out_cast := castT out DType.f32
      let out_grad_cast := castT out_grad DType.f32
      let sigmoid := ewMap (fun v => 1 / (1 + K.expF (-v))) x_cast
      let res := mulT (mulT out_grad_cast sigmoid) (addT (ewMap (fun v => 1 + v) x_cast) (negT out_cast))
      some (castT res org_dtype)
    else
      let sigmoid := ewMap (fun v => 1 / (1 + K.expF (-v))) x
      let res := mulT (mulT out_grad sigmoid) (addT (ewMap (fun v => 1 + v) x) (negT out))
      some res
  else none

/-- Rule `maximum_grad` (details.h:825-868).  Result is `(x slot, y slot)`. -/
def maximum_grad (x y out_grad : Tensor) (x_grad y_grad : Bool) :
    Option Tensor × Option Tensor :=
  let xg : Option Tensor :=
    if x_grad then
      let x_tmp := castT (greater_thanT x y) out_grad.dtype
      let dx_res := mulT out_grad x_tmp
      if y.shape ≠ x.shape then
        let reduce_dim := get_reduce_dims x.shape y.shape
        if reduce_dim = [] then some dx_res
        else some (reshapeT (sumAt dx_res reduce_dim x.dtype false) x.shape)
      else some dx_res
    else none
  let yg : Option Tensor :=
    if y_grad then
      let y_tmp := castT (less_equalT x y) out_grad.dtype
      let dy_res := mulT out_grad y_tmp
      if x.shape ≠ y.shape then
        let reduce_dim := get_reduce_dims y.shape x.shape
        if reduce_dim = [] then some dy_res
        else some (reshapeT (sumAt dy_res reduce_dim y.dtype false) y.shape)
      else some dy_res
    else none
  (xg, yg)

/-- Rule `minimum_grad` (details.h:1309-1352).  Result is `(x slot, y slot)`. -/
def minimum_grad (x y out_grad : Tensor) (x_grad y_grad : Bool) :
    Option Tensor × Option Tensor :=
  let xg : Option Tensor :=
    if x_grad then
      let x_tmp := castT (less_thanT x y) out_grad.dtype
      let dx_res := mulT out_grad x_tmp
      if y.shape ≠ x.shape then
        let reduce_dim := get_reduce_dims x.shape y.shape
        if reduce_dim = [] then some dx_res
        else some (reshapeT (sumAt dx_res reduce_dim x.dtype false) x.shape)
      else some dx_res
    else none
  let yg : Option Tensor :=
    if y_grad then
      let y_tmp := castT (greater_equalT x y) out_grad.dtype
      let dy_res := mulT out_grad y_tmp
      if x.shape ≠ y.shape then
        let reduce_dim := get_reduce_dims y.shape x.shape
        if reduce_dim = [] then some dy_res
        else some (reshapeT (sumAt dy_res reduce_dim y.dtype false) y.shape)
      else some dy_res
    else none
  (xg, yg)

/-- Rule `instance_norm_grad` (details.h:941-1031).  Result is
`(x_grad, scale_grad, bias_grad)`. -/
def instance_norm_grad (K : Backend) (x : Tensor) (scale : Option Tensor)
    (saved_mean saved_variance y_grad : Tensor) (epsilon : Rat)
    (x_grad scale_grad bias_grad : Bool) :
    Option Tensor × Option Tensor × Option Tensor :=
  let n := x.shape.getD 0 0
  let c := x.shape.getD 1 0
  let h := x.shape.getD 2 0
  let w := x.shape.getD 3 0
  let promoted_y_grad :=
    if x.dtype = DType.f16 ∨ x.dtype = DType.bf16 then castT y_grad DType.f32 else y_grad
  let xhat_std : Tensor × Tensor :=
    if scale_grad || x_grad then
      let promoted_x :=
        if x.dtype = DType.f16 ∨ x.dtype = DType.bf16 then castT x DType.f32 else x
      let promoted_saved_mean :=
        if x.dtype = DType.f16 ∨ x.dtype = DType.bf16 then castT saved_mean DType.f32
        else saved_mean
      let promoted_saved_var :=
        if x.dtype = DType.f16 ∨ x.dtype = DType.bf16 then castT saved_variance DType.f32
        else saved_variance
      let mean := tileT (reshapeT promoted_saved_mean [n, c, 1, 1]) [1, 1, h, w]
      let std_inv := tileT (reshapeT promoted_saved_var [n, c, 1, 1]) [1, 1, h, w]
      (mulT (subT promoted_x mean) std_inv, std_inv)
    else (defaultTensor, defaultTensor)
  let x_hat := xhat_std.1
  let std_inv := xhat_std.2
  let xg : Option Tensor :=
    if x_grad then
      let scale_data :=
        tileT
          (reshapeT (match scale with | some sp => sp | none => fullT [c] 1 x.dtype) [1, c, 1, 1])
          [n, 1, h, w]
      let promoted_scale :=
        if scale_data.dtype = DType.f16 ∨ scale_data.dtype = DType.bf16 then
          castT scale_data DType.f32
        else scale_data
      let result :=
        mulT (mulT promoted_scale std_inv)
          (subT
            (subT promoted_y_grad
              (ewMap (fun v => v / ((h * w : Nat) : Rat))
                (sumAt promoted_y_grad [2, 3] promoted_y_grad.dtype true)))
            (mulT x_hat
              (ewMap (fun v => v / ((h * w : Nat) : Rat))
                (sumAt (mulT promoted_y_grad x_hat) [2, 3] promoted_y_grad.dtype true))))
      if x.dtype = DType.f16 ∨ x.dtype = DType.bf16 then some (castT result x.dtype)
      else some result
    else none
  let sg : Option Tensor :=
    if scale_grad then
      let result :=
        sumAt (mulT promoted_y_grad x_hat) [0, 2, 3] (mulT promoted_y_grad x_hat).dtype false
      let scale_dtype := match scale with | some sp => sp.dtype | none => x.dtype
      if scale_dtype = DType.f16 ∨ scale_dtype = DType.bf16 then some (castT result scale_dtype)
      else some result
    else none
  let bg : Option Tensor :=
    if bias_grad then
      let result := sumAt promoted_y_grad [0, 2, 3] promoted_y_grad.dtype false
      let scale_dtype := match scale with | some sp => sp.dtype | none => x.dtype
      if scale_dtype = DType.f16 ∨ scale_dtype = DType.bf16 then some (castT result scale_dtype)
      else some result
    else none
  (xg, sg, bg)

/-- Rule `max_grad` (details.h:1059-1109).  The `reduce_all` parameter is
locally overwritten before first use, exactly as in the source. -/
def max_grad (x out out_grad : Tensor) (axis : List Int)
    (keepdim reduce_all : Bool) (x_grad : Bool) : Option Tensor :=
  if !x_grad then none
  else
    let zero_tensor := fullT x.shape 0 x.dtype
    let x_dim := x.shape
    let axis_size := axis.length
    let x_dim_size := x_dim.length
    let reduce_all := false
    let reduce_all := reduce_all || axis_size == 0 || axis_size == x_dim_size
    let x_grad_tmp :=
      if x_dim_size == 0 || x_dim_size == 1 || keepdim then
        let out_grad_tmp := expandT out_grad x_dim
        let out_tmp := expandT out x_dim
        let mask := equalT x out_tmp
        whereT mask out_grad_tmp zero_tensor
      else
        let axis_ : List Int :=
          if reduce_all then (List.range x_dim_size).map (fun i => (i : Int))
          else axis.map (fun a => if a < 0 then a + x_dim_size else a)
        let out_grad_shape := get_unsqueeze_dims out_grad (axis_.map Int.toNat)
        let out_grad_ := reshapeT out_grad out_grad_shape
        let out_ := reshapeT out out_grad_shape
        let out_grad_tmp := expandT out_grad_ x_dim
        let out_tmp := expandT out_ x_dim
        let mask := equalT x out_tmp
        whereT mask out_grad_tmp zero_tensor
    some x_grad_tmp

/-- Rule `topk_grad` (details.h:1235-1254). -/
def topk_grad (x indices out_grad : Tensor) (k : Int) (axis : Int)
    (largest sorted : Bool) (x_grad : Bool) : Option Tensor :=
  if x_grad then
    if x.shape.length = 0 then some (by_passT out_grad)
    else
      let zero_tensor := fullT x.shape 0 x.dtype
      some (put_along_axisT zero_tensor indices out_grad axis)
  else none

/-- Rule `prod_grad` (details.h:1256-1307).  The `reduce_all` parameter is
locally overwritten before first use, exactly as in the source. -/
def prod_grad (x out out_grad : Tensor) (axis : List Int)
    (keep_dim reduce_all : Bool) (x_grad : Bool) : Option Tensor :=
  if x_grad then
    let x_dim := x.shape
    let axis_size := axis.length
    let x_dim_size := x_dim.length
    let reduce_all := false
    let reduce_all := reduce_all || axis_size == 0 || axis_size == x_dim_size
    let tmps : Tensor × Tensor :=
      if x_dim_size == 1 then (expandT out_grad x_dim, expandT out x_dim)
      else
        if !keep_dim then
          let axis_ : List Int :=
            if reduce_all then (List.range x_dim_size).map (fun i => (i : Int))
            else axis.map (fun a => if a < 0 then a + x_dim_size else a)
          let out_grad_shape := get_unsqueeze_dims out_grad (axis_.map Int.toNat)
          let out_grad_ := reshapeT out_grad out_grad_shape
          let out_ := reshapeT out out_grad_shape
          (expandT out_grad_ x_dim, expandT out_ x_dim)
        else (expandT out_grad x_dim, expandT out x_dim)
    let x_grad_tmp := tmps.1
    let out_tmp := tmps.2
    let x_grad_res := mulT (mulT x_grad_tmp out_tmp) (ewMap (fun v => 1 / v) x)
    some x_grad_res
  else none

/-! ## List helper lemmas -/

theorem getD_eq_getElem_of_lt {α : Type} (l : List α) (d : α) :
    ∀ k, (h : k < l.length) → l.getD k d = l[k] := by
  induction l with
  | nil => intro k h; simp at h
  | cons a l ih =>
    intro k h
    cases k with
    | zero => simp [List.getD]
    | succ k =>
      simp only [List.getD_cons_succ]
      exact ih k (by simpa using h)

theorem getD_map_of_lt {α β : Type} (f : α → β) (l : List α) (dα : α) (dβ : β) :
    ∀ k, k < l.length → (l.map f).getD k dβ = f (l.getD k dα) := by
  intro k h
  rw [getD_eq_getElem_of_lt _ _ k (by simpa using h), getD_eq_getElem_of_lt _ _ k h,
    List.getElem_map]

theorem map_getD_range {α : Type} (d : α) :
    ∀ (l : List α), (List.range l.length).map (fun k => l.getD k d) = l := by
  intro l
  induction l with
  | nil => simp
  | cons a l ih =>
    rw [show (a :: l).length = l.length + 1 from rfl, List.range_succ_eq_map,
      List.map_cons, List.map_map]
    have h2 : ((fun k => (a :: l).getD k d) ∘ Nat.succ) = fun k => l.getD k d := by
      funext k
      show (a :: l).getD (k + 1) d = l.getD k d
      rw [List.getD_cons_succ]
    rw [h2, ih, List.getD_cons_zero]

theorem getD_set_ne {α : Type} (v d : α) :
    ∀ (l : List α) (m a : Nat), m ≠ a → (l.set m v).getD a d = l.getD a d := by
  intro l
  induction l with
  | nil => intro m a _; simp
  | cons b l ih =>
    intro m a hma
    cases m with
    | zero =>
      cases a with
      | zero => exact absurd rfl hma
      | succ a => simp [List.getD_cons_succ]
    | succ m =>
      cases a with
      | zero => simp [List.getD_cons_zero]
      | succ a =>
        simp only [List.set_cons_succ, List.getD_cons_succ]
        exact ih m a (by omega)

theorem getD_set_eq {α : Type} (v d : α) :
    ∀ (l : List α) (a : Nat), a < l.length → (l.set a v).getD a d = v := by
  intro l
  induction l with
  | nil => intro a h; simp at h
  | cons b l ih =>
    intro a h
    cases a with
    | zero => simp
    | succ a =>
      simp only [List.set_cons_succ, List.getD_cons_succ]
      exact ih a (by simpa using h)

/-! ## Lemmas about the row-major index enumeration -/

theorem crossCons_append (is js : List Nat) (tails : List (List Nat)) :
    crossCons (is ++ js) tails = crossCons is tails ++ crossCons js tails := by
  induction is with
  | nil => simp [crossCons]
  | cons i is ih => simp [crossCons, ih]

theorem mem_crossCons {x : List Nat} {is : List Nat} {tails : List (List Nat)} :
    x ∈ crossCons is tails ↔ ∃ i ∈ is, ∃ t ∈ tails, x = i :: t := by
  induction is with
  | nil => simp [crossCons]
  | cons i is ih =>
    simp only [crossCons, List.mem_append, List.mem_map, ih, List.mem_cons]
    constructor
    · rintro (⟨t, ht, rfl⟩ | ⟨j, hj, t, ht, rfl⟩)
      · exact ⟨i, Or.inl rfl, t, ht, rfl⟩
      · exact ⟨j, Or.inr hj, t, ht, rfl⟩
    · rintro ⟨j, hj | hj, t, ht, rfl⟩
      · subst hj; exact Or.inl ⟨t, ht, rfl⟩
      · exact Or.inr ⟨j, hj, t, ht, rfl⟩

theorem range_add_split (a b : Nat) :
    List.range (a + b) = List.range a ++ (List.range b).map (fun k => a + k) := by
  induction b with
  | zero => simp
  | succ b ih =>
    rw [show a + (b + 1) = (a + b) + 1 by ring, List.range_succ, ih, List.range_succ]
    simp

theorem flatten_map_allIndices :
    ∀ s : List Nat, (allIndices s).map (flatten s) = List.range s.prod := by
  intro s
  induction s with
  | nil =>
    show [flatten [] []] = List.range 1
    rw [show (1 : Nat) = 0 + 1 from rfl, List.range_succ]
    simp [flatten]
  | cons d s ih =>
    show ((crossCons (List.range d) (allIndices s)).map (flatten (d :: s))) = List.range ((d :: s).prod)
    have key : ∀ m : Nat,
        ((crossCons (List.range m) (allIndices s)).map (flatten (d :: s))) = List.range (m * s.prod) := by
      intro m
      induction m with
      | zero => simp [crossCons]
      | succ m ihm =>
        rw [List.range_succ, crossCons_append, List.map_append, ihm]
        have h1 : crossCons [m] (allIndices s) = (allIndices s).map (fun t => m :: t) := by
          simp [crossCons]
        rw [h1, List.map_map]
        have h2 : (flatten (d :: s) ∘ fun t => m :: t) = fun t => m * s.prod + flatten s t := by
          funext t; simp [flatten]
        rw [h2]
        have h3 : (fun t => m * s.prod + flatten s t) = (fun k => m * s.prod + k) ∘ flatten s := rfl
        rw [h3, ← List.map_map, ih,
          show (m + 1) * s.prod = m * s.prod + s.prod by ring, range_add_split]
    rw [key d, List.prod_cons]

theorem allIndices_length (s : List Nat) : (allIndices s).length = s.prod := by
  have := congrArg List.length (flatten_map_allIndices s)
  simpa using this

theorem mem_allIndices {s idx : List Nat} :
    idx ∈ allIndices s ↔ List.Forall₂ (fun i d => i < d) idx s := by
  induction s generalizing idx with
  | nil =>
    simp only [allIndices, List.mem_singleton]
    constructor
    · rintro rfl; exact List.Forall₂.nil
    · intro h; cases h; rfl
  | cons d s ih =>
    simp only [allIndices, mem_crossCons, List.mem_range]
    constructor
    · rintro ⟨i, hi, t, ht, rfl⟩
      exact List.Forall₂.cons hi (ih.mp ht)
    · intro h
      cases h with
      | cons hd ht => exact ⟨_, hd, _, ih.mpr ht, rfl⟩

theorem flatten_lt_prod {s idx : List Nat} (h : idx ∈ allIndices s) :
    flatten s idx < s.prod := by
  have h2 : flatten s idx ∈ (allIndices s).map (flatten s) := List.mem_map_of_mem _ h
  rw [flatten_map_allIndices] at h2
  exact List.mem_range.mp h2

theorem flatten_getElem_allIndices (s : List Nat) (k : Nat)
    (hk : k < (allIndices s).length) :
    flatten s ((allIndices s)[k]) = k := by
  have h1 : ((allIndices s).map (flatten s))[k]? = some (flatten s ((allIndices s)[k])) := by
    rw [List.getElem?_map, List.getElem?_eq_getElem hk]
    rfl
  rw [flatten_map_allIndices] at h1
  have hk2 : k < s.prod := by rw [allIndices_length] at hk; exact hk
  rw [List.getElem?_range hk2] at h1
  exact (Option.some_inj.mp h1).symm

theorem getElem_allIndices_flatten {s idx : List Nat} (h : idx ∈ allIndices s) :
    (allIndices s).getD (flatten s idx) [] = idx := by
  obtain ⟨k, hk, hke⟩ := List.getElem_of_mem h
  have h2 : flatten s idx = k := by rw [← hke]; exact flatten_getElem_allIndices s k hk
  rw [h2, getD_eq_getElem_of_lt _ _ k hk, hke]

theorem map_allIndices_getD_flatten {α : Type} (g : List Nat → α) (dα : α)
    {s idx : List Nat} (h : idx ∈ allIndices s) :
    ((allIndices s).map g).getD (flatten s idx) dα = g idx := by
  have hlt : flatten s idx < (allIndices s).length := by
    rw [allIndices_length]; exact flatten_lt_prod h
  rw [getD_eq_getElem_of_lt _ _ _ (by simpa using hlt)]
  rw [List.getElem_map]
  congr 1
  have := getElem_allIndices_flatten h
  rwa [getD_eq_getElem_of_lt _ _ _ hlt] at this

theorem data_eq_map_allIndices {t : Tensor} (hwf : wellFormed t) :
    (allIndices t.shape).map (fun idx => t.data.getD (flatten t.shape idx) 0) = t.data := by
  have h1 : (fun idx => t.data.getD (flatten t.shape idx) 0) =
      (fun k => t.data.getD k 0) ∘ flatten t.shape := rfl
  rw [h1, ← List.map_map, flatten_map_allIndices]
  rw [← hwf]
  exact map_getD_range 0 t.data

/-! ## Pointwise evaluation of elementwise operations -/

theorem broadcastShape_self (s : List Nat) : broadcastShape s s = s := by
  unfold broadcastShape
  simp only [Nat.max_self, Nat.sub_self, List.replicate_zero, List.nil_append]
  induction s with
  | nil => rfl
  | cons d s ih => simpa [List.zip_cons_cons] using ih

theorem projIdx_self {s idx : List Nat} (h : List.Forall₂ (fun i d => i < d) idx s) :
    projIdx s idx = idx := by
  unfold projIdx
  rw [h.length_eq, Nat.sub_self, List.drop_zero]
  induction h with
  | nil => rfl
  | cons hid hrest ih =>
    rename_i i d idxt st
    simp only [List.zip_cons_cons, List.map_cons]
    rw [ih]
    by_cases hd : d = 1
    · subst hd
      have : i = 0 := by omega
      simp [this]
    · simp [hd]

theorem tensorGet_valid {t : Tensor} {s idx : List Nat} (hs : t.shape = s)
    (h : idx ∈ allIndices s) :
    tensorGet t idx = t.data.getD (flatten s idx) 0 := by
  unfold tensorGet
  rw [hs, projIdx_self (mem_allIndices.mp h)]

theorem ew2_data_getD {f : Rat → Rat → Rat} {a b : Tensor} {s : List Nat}
    (ha : a.shape = s) (hb : b.shape = s) {k : Nat} (hk : k < s.prod) :
    (ew2 f a b).data.getD k 0 = f (a.data.getD k 0) (b.data.getD k 0) := by
  unfold ew2
  simp only [ha, hb, broadcastShape_self]
  have hk' : k < (allIndices s).length := by rw [allIndices_length]; exact hk
  have hmem : (allIndices s)[k] ∈ allIndices s := List.getElem_mem hk'
  have hfl : flatten s ((allIndices s)[k]) = k := flatten_getElem_allIndices s k hk'
  rw [getD_eq_getElem_of_lt _ _ k (by simpa using hk'), List.getElem_map]
  rw [tensorGet_valid ha hmem, tensorGet_valid hb hmem, hfl]

theorem ew2_shape {f : Rat → Rat → Rat} {a b : Tensor} {s : List Nat}
    (ha : a.shape = s) (hb : b.shape = s) : (ew2 f a b).shape = s := by
  unfold ew2
  simp [ha, hb, broadcastShape_self]

theorem ew2_data_length {f : Rat → Rat → Rat} {a b : Tensor} {s : List Nat}
    (ha : a.shape = s) (hb : b.shape = s) : (ew2 f a b).data.length = s.prod := by
  unfold ew2
  simp [ha, hb, broadcastShape_self, allIndices_length]

theorem ewMap_data_getD {f : Rat → Rat} {t : Tensor} {k : Nat}
    (hk : k < t.data.length) :
    (ewMap f t).data.getD k 0 = f (t.data.getD k 0) := by
  unfold ewMap
  simp only
  rw [getD_eq_getElem_of_lt _ _ k (by simpa using hk), List.getElem_map,
    getD_eq_getElem_of_lt _ _ k hk]

/-! ## Shape lemmas for the broadcast-reduce resolver (claim C1) -/

theorem mem_reduceAxesAligned_ge :
    ∀ (i : Nat) (fs ts : List Nat) (j : Nat), j ∈ reduceAxesAligned i fs ts → i ≤ j := by
  intro i fs
  induction fs generalizing i with
  | nil => intro ts j hj; cases ts <;> simp [reduceAxesAligned] at hj
  | cons f fs ih =>
    intro ts j hj
    cases ts with
    | nil => simp [reduceAxesAligned] at hj
    | cons t ts =>
      simp only [reduceAxesAligned, List.mem_append] at hj
      rcases hj with hj | hj
      · by_cases hc : t = 1 ∧ f ≠ 1
        · simp [hc] at hj; omega
        · simp [hc] at hj
      · have := ih (i + 1) ts j hj
        omega

theorem removeAxesAux_cons_lt (v : Nat) :
    ∀ (s : List Nat) (k : Nat) (A : List Nat), v < k →
      removeAxesAux k s (v :: A) = removeAxesAux k s A := by
  intro s
  induction s with
  | nil => intro k A _; rfl
  | cons d s ih =>
    intro k A hv
    simp only [removeAxesAux]
    have hne : ¬ k = v := by omega
    rw [ih (k + 1) A (by omega)]
    congr 1
    simp [List.mem_cons, hne]

theorem removeAxes_aligned_prod :
    ∀ (fs ts : List Nat) (i : Nat),
      List.Forall₂ (fun f t => t = f ∨ t = 1) fs ts →
      (removeAxesAux i fs (reduceAxesAligned i fs ts)).prod = ts.prod := by
  intro fs ts i h
  induction h generalizing i with
  | nil => rfl
  | cons hft hrest ih =>
    rename_i f t fs' ts'
    by_cases hc : t = 1 ∧ f ≠ 1
    · have e1 : reduceAxesAligned i (f :: fs') (t :: ts') =
          i :: reduceAxesAligned (i + 1) fs' ts' := by
        simp [reduceAxesAligned, hc]
      rw [e1]
      have e2 : removeAxesAux i (f :: fs') (i :: reduceAxesAligned (i + 1) fs' ts') =
          (if i ∈ i :: reduceAxesAligned (i + 1) fs' ts' then ([] : List Nat) else [f]) ++
            removeAxesAux (i + 1) fs' (i :: reduceAxesAligned (i + 1) fs' ts') := rfl
      rw [e2, if_pos (List.mem_cons_self _ _), List.nil_append,
        removeAxesAux_cons_lt i fs' (i + 1) _ (by omega), ih (i + 1),
        List.prod_cons, hc.1, one_mul]
    · have e1 : reduceAxesAligned i (f :: fs') (t :: ts') =
          reduceAxesAligned (i + 1) fs' ts' := by
        simp [reduceAxesAligned, hc]
      rw [e1]
      have hnot : i ∉ reduceAxesAligned (i + 1) fs' ts' := by
        intro hmem
        have := mem_reduceAxesAligned_ge (i + 1) fs' ts' i hmem
        omega
      have e2 : removeAxesAux i (f :: fs') (reduceAxesAligned (i + 1) fs' ts') =
          (if i ∈ reduceAxesAligned (i + 1) fs' ts' then ([] : List Nat) else [f]) ++
            removeAxesAux (i + 1) fs' (reduceAxesAligned (i + 1) fs' ts') := rfl
      have hft2 : f = t := by
        rcases hft with hft | hft
        · omega
        · rcases Decidable.em (f = 1) with hf | hf
          · omega
          · exact absurd ⟨hft, hf⟩ hc
      rw [e2, if_neg hnot, List.singleton_append, List.prod_cons, ih (i + 1), hft2]
      exact (List.prod_cons).symm

theorem removeAxesAux_range_lead :
    ∀ (b : Nat) (i : Nat) (s : List Nat) (rest : List Nat),
      (∀ j ∈ rest, i + b ≤ j) → b ≤ s.length →
      removeAxesAux i s (List.range' i b 1 ++ rest) =
        removeAxesAux (i + b) (s.drop b) rest := by
  intro b
  induction b with
  | zero => intro i s rest _ _; simp [List.range']
  | succ b ih =>
    intro i s rest hrest hb
    cases s with
    | nil => simp at hb
    | cons d s =>
      have hr : List.range' i (b + 1) 1 = i :: List.range' (i + 1) b 1 := by
        simp [List.range'_succ]
      rw [hr]
      have e2 : removeAxesAux i (d :: s) ((i :: List.range' (i + 1) b 1) ++ rest) =
          (if i ∈ (i :: List.range' (i + 1) b 1) ++ rest then ([] : List Nat) else [d]) ++
            removeAxesAux (i + 1) s ((i :: List.range' (i + 1) b 1) ++ rest) := rfl
      rw [e2]
      have hmem : i ∈ (i :: List.range' (i + 1) b 1) ++ rest := by
        simp
      rw [if_pos hmem, List.nil_append]
      have e3 : (i :: List.range' (i + 1) b 1) ++ rest =
          i :: (List.range' (i + 1) b 1 ++ rest) := rfl
      rw [e3, removeAxesAux_cons_lt i s (i + 1) _ (by omega)]
      rw [ih (i + 1) s rest (by intro j hj; have := hrest j hj; omega) (by simpa using hb)]
      congr 1
      omega

theorem bcastTo_forall₂ {toS fromS : List Nat} (h : bcastTo toS fromS) :
    List.Forall₂ (fun f t => t = f ∨ t = 1)
      (fromS.drop (fromS.length - toS.length)) toS := by
  obtain ⟨hlen, hzip⟩ := h
  have hlen2 : (fromS.drop (fromS.length - toS.length)).length = toS.length := by
    rw [List.length_drop]; omega
  rw [List.forall₂_iff_zip]
  constructor
  · exact hlen2
  · intro a b hab
    exact hzip (a, b) hab

theorem reduceAxes_prod {A B : List Nat} (h : bcastTo B A) :
    (removeAxes A (reduceAxes A B)).prod = B.prod := by
  have e1 : reduceAxes A B =
      List.range (A.length - B.length) ++
        reduceAxesAligned (A.length - B.length) (A.drop (A.length - B.length)) B := rfl
  rw [e1]
  unfold removeAxes
  rw [List.range_eq_range']
  rw [removeAxesAux_range_lead (A.length - B.length) 0 A _
    (by
      intro j hj
      have := mem_reduceAxesAligned_ge (A.length - B.length)
        (A.drop (A.length - B.length)) B j hj
      omega)
    (by omega)]
  rw [Nat.zero_add]
  exact removeAxes_aligned_prod _ _ _ (bcastTo_forall₂ h)

theorem reduceAxesAligned_eq_nil_iff {fs ts : List Nat}
    (h : List.Forall₂ (fun f t => t = f ∨ t = 1) fs ts) :
    ∀ i, (reduceAxesAligned i fs ts = [] ↔ fs = ts) := by
  induction h with
  | nil => intro i; simp [reduceAxesAligned]
  | cons hft hrest ih =>
    rename_i f t fs' ts'
    intro i
    by_cases hc : t = 1 ∧ f ≠ 1
    · have e1 : reduceAxesAligned i (f :: fs') (t :: ts') =
          i :: reduceAxesAligned (i + 1) fs' ts' := by
        simp [reduceAxesAligned, hc]
      rw [e1]
      constructor
      · intro habs
        exact absurd habs (List.cons_ne_nil _ _)
      · intro heq
        have hf : f = t := by injection heq
        exact absurd (hf.trans hc.1) hc.2
    · have e1 : reduceAxesAligned i (f :: fs') (t :: ts') =
          reduceAxesAligned (i + 1) fs' ts' := by
        simp [reduceAxesAligned, hc]
      have hft2 : f = t := by
        rcases hft with hft | hft
        · omega
        · rcases Decidable.em (f = 1) with hf | hf
          · omega
          · exact absurd ⟨hft, hf⟩ hc
      rw [e1, ih (i + 1)]
      constructor
      · intro he
        rw [hft2, he]
      · intro he
        simp only [List.cons.injEq] at he
        exact he.2

theorem forall₂_bcast_refl (A : List Nat) :
    List.Forall₂ (fun f t => t = f ∨ t = 1) A A := by
  induction A with
  | nil => exact List.Forall₂.nil
  | cons d s ih => exact List.Forall₂.cons (Or.inl rfl) ih

theorem reduceAxes_nil_iff {A B : List Nat} (h : bcastTo B A) :
    reduceAxes A B = [] ↔ A = B := by
  have e1 : reduceAxes A B =
      List.range (A.length - B.length) ++
        reduceAxesAligned (A.length - B.length) (A.drop (A.length - B.length)) B := rfl
  rw [e1]
  constructor
  · intro he
    rw [List.append_eq_nil] at he
    have hbat : A.length - B.length = 0 := List.range_eq_nil.mp he.1
    have hlen : A.length = B.length := by
      have := h.1
      omega
    have hdrop : A.drop (A.length - B.length) = A := by
      rw [hbat, List.drop_zero]
    have hfa := bcastTo_forall₂ h
    rw [hdrop] at hfa
    have h2 := (reduceAxesAligned_eq_nil_iff hfa (A.length - B.length)).mp
    rw [hdrop] at he
    exact h2 he.2
  · intro he
    subst he
    have hbat : A.length - A.length = 0 := by omega
    rw [hbat]
    simp only [List.range_zero, List.nil_append, List.drop_zero]
    exact (reduceAxesAligned_eq_nil_iff (forall₂_bcast_refl A) 0).mpr rfl

theorem keepShapeAux_prod_eq_removeAxesAux :
    ∀ (s : List Nat) (i : Nat) (axes : List Nat),
      (keepShapeAux i s axes).prod = (removeAxesAux i s axes).prod := by
  intro s
  induction s with
  | nil => intro i axes; rfl
  | cons d s ih =>
    intro i axes
    simp only [keepShapeAux, removeAxesAux]
    by_cases hm : i ∈ axes
    · simp [hm, ih (i + 1)]
    · simp [hm, ih (i + 1)]

theorem sumAt_data_length (t : Tensor) (axes : List Nat) (dt : DType) :
    (sumAt t axes dt false).data.length = (removeAxes t.shape axes).prod := by
  unfold sumAt sumKeep
  simp only [if_neg (Bool.false_ne_true)]
  simp only [List.length_map, allIndices_length]
  exact keepShapeAux_prod_eq_removeAxesAux t.shape 0 axes

theorem sumAt_shape_false (t : Tensor) (axes : List Nat) (dt : DType) :
    (sumAt t axes dt false).shape = removeAxes t.shape axes := by
  unfold sumAt
  simp

/-! ## Permutation lemmas (claim C8) -/

theorem getD_range {n a : Nat} (h : a < n) : (List.range n).getD a 0 = a := by
  rw [getD_eq_getElem_of_lt _ _ a (by simpa using h)]
  simp

theorem idxOfN_lt_length {a : Nat} :
    ∀ {l : List Nat}, a ∈ l → idxOfN a l < l.length := by
  intro l
  induction l with
  | nil => intro h; simp at h
  | cons b l ih =>
    intro h
    by_cases hb : b = a
    · rw [show idxOfN a (b :: l) = 0 by simp [idxOfN, hb]]
      simp
    · have hmem : a ∈ l := by
        rcases List.mem_cons.mp h with h1 | h1
        · exact absurd h1.symm hb
        · exact h1
      rw [show idxOfN a (b :: l) = idxOfN a l + 1 by simp [idxOfN, hb]]
      have := ih hmem
      simp only [List.length_cons]
      omega

theorem getD_idxOfN {a : Nat} :
    ∀ {l : List Nat}, a ∈ l → l.getD (idxOfN a l) 0 = a := by
  intro l
  induction l with
  | nil => intro h; simp at h
  | cons b l ih =>
    intro h
    by_cases hb : b = a
    · rw [show idxOfN a (b :: l) = 0 by simp [idxOfN, hb]]
      simpa using hb
    · have hmem : a ∈ l := by
        rcases List.mem_cons.mp h with h1 | h1
        · exact absurd h1.symm hb
        · exact h1
      rw [show idxOfN a (b :: l) = idxOfN a l + 1 by simp [idxOfN, hb]]
      rw [List.getD_cons_succ]
      exact ih hmem

theorem idxOfN_getD :
    ∀ {l : List Nat}, l.Nodup → ∀ k, k < l.length → idxOfN (l.getD k 0) l = k := by
  intro l
  induction l with
  | nil => intro _ k hk; simp at hk
  | cons b l ih =>
    intro hnd k hk
    obtain ⟨hb, hndl⟩ := List.nodup_cons.mp hnd
    cases k with
    | zero => simp [idxOfN]
    | succ k =>
      rw [List.getD_cons_succ]
      have hklt : k < l.length := by simpa using hk
      have hmem : l.getD k 0 ∈ l := by
        rw [getD_eq_getElem_of_lt _ _ k hklt]
        exact List.getElem_mem hklt
      have hbne : ¬ b = l.getD k 0 := fun he => hb (he ▸ hmem)
      have estep : idxOfN (l.getD k 0) (b :: l) =
          if b = l.getD k 0 then 0 else idxOfN (l.getD k 0) l + 1 := rfl
      rw [estep, if_neg hbne, ih hndl k hklt]

theorem forall₂_getD_iff {R : Nat → Nat → Prop} :
    ∀ {l1 l2 : List Nat}, List.Forall₂ R l1 l2 ↔
      (l1.length = l2.length ∧ ∀ k, k < l1.length → R (l1.getD k 0) (l2.getD k 0)) := by
  intro l1
  induction l1 with
  | nil =>
    intro l2
    constructor
    · intro h; cases h; exact ⟨rfl, fun k hk => by simp at hk⟩
    · rintro ⟨hlen, _⟩
      cases l2 with
      | nil => exact List.Forall₂.nil
      | cons b l2 => simp at hlen
  | cons a l1 ih =>
    intro l2
    constructor
    · intro h
      cases h with
      | cons hab hrest =>
        obtain ⟨hlen, hpt⟩ := ih.mp hrest
        refine ⟨by simp [hlen], ?_⟩
        intro k hk
        cases k with
        | zero => simpa using hab
        | succ k =>
          simp only [List.getD_cons_succ]
          exact hpt k (by simpa using hk)
    · rintro ⟨hlen, hpt⟩
      cases l2 with
      | nil => simp at hlen
      | cons b l2 =>
        refine List.Forall₂.cons (by simpa using hpt 0 (by simp)) (ih.mpr ⟨by simpa using hlen, ?_⟩)
        intro k hk
        have := hpt (k + 1) (by simpa using hk)
        simpa using this

/-! Facts about a permutation `q` of `List.range r`. -/

theorem perm_length {q : List Nat} {r : Nat} (hq : List.Perm q (List.range r)) :
    q.length = r := by
  have := hq.length_eq
  simpa using this

theorem perm_mem_iff {q : List Nat} {r : Nat} (hq : List.Perm q (List.range r)) (a : Nat) :
    a ∈ q ↔ a < r := by
  rw [hq.mem_iff, List.mem_range]

theorem perm_nodup {q : List Nat} {r : Nat} (hq : List.Perm q (List.range r)) :
    q.Nodup := by
  exact hq.nodup_iff.mpr (List.nodup_range r)

theorem perm_getD_lt {q : List Nat} {r : Nat} (hq : List.Perm q (List.range r))
    {i : Nat} (hi : i < r) : q.getD i 0 < r := by
  have hi' : i < q.length := by rw [perm_length hq]; exact hi
  have : q.getD i 0 ∈ q := by
    rw [getD_eq_getElem_of_lt _ _ i hi']
    exact List.getElem_mem hi'
  exact (perm_mem_iff hq _).mp this

theorem invPerm_length (q : List Nat) : (invPerm q).length = q.length := by
  unfold invPerm
  simp

theorem invPerm_getD {q : List Nat} {r : Nat} (hq : List.Perm q (List.range r))
    {a : Nat} (ha : a < r) : (invPerm q).getD a 0 = idxOfN a q := by
  unfold invPerm
  have ha' : a < (List.range q.length).length := by
    simp [perm_length hq]; exact ha
  rw [getD_map_of_lt _ _ 0 _ a ha', getD_range (by rw [perm_length hq]; exact ha)]

theorem invPerm_getD_applyq {q : List Nat} {r : Nat} (hq : List.Perm q (List.range r))
    {i : Nat} (hi : i < r) : (invPerm q).getD (q.getD i 0) 0 = i := by
  rw [invPerm_getD hq (perm_getD_lt hq hi)]
  have hi' : i < q.length := by rw [perm_length hq]; exact hi
  exact idxOfN_getD (perm_nodup hq) i hi'

theorem applyq_invPerm_getD {q : List Nat} {r : Nat} (hq : List.Perm q (List.range r))
    {a : Nat} (ha : a < r) : q.getD ((invPerm q).getD a 0) 0 = a := by
  rw [invPerm_getD hq ha]
  exact getD_idxOfN ((perm_mem_iff hq a).mpr ha)

theorem applyPermN_length (q l : List Nat) : (applyPermN q l).length = q.length := by
  unfold applyPermN
  simp

theorem applyPermN_getD {q l : List Nat} {k : Nat} (hk : k < q.length) :
    (applyPermN q l).getD k 0 = l.getD (q.getD k 0) 0 := by
  unfold applyPermN
  rw [getD_map_of_lt _ _ 0 _ k hk]

theorem applyPermN_inv_applyPermN {q : List Nat} {r : Nat}
    (hq : List.Perm q (List.range r)) {l : List Nat} (hl : l.length = r) :
    applyPermN (invPerm q) (applyPermN q l) = l := by
  apply List.ext_getElem
  · rw [applyPermN_length, invPerm_length, perm_length hq, hl]
  · intro a h1 h2
    have har : a < r := by
      rw [applyPermN_length, invPerm_length, perm_length hq] at h1
      exact h1
    rw [← getD_eq_getElem_of_lt _ 0 a h1, ← getD_eq_getElem_of_lt _ 0 a h2]
    rw [applyPermN_getD (by rw [invPerm_length, perm_length hq]; exact har)]
    rw [invPerm_getD hq har]
    have hidx : idxOfN a q < q.length := idxOfN_lt_length ((perm_mem_iff hq a).mpr har)
    rw [applyPermN_getD hidx]
    rw [getD_idxOfN ((perm_mem_iff hq a).mpr har)]

theorem applyPermN_applyPermN_inv {q : List Nat} {r : Nat}
    (hq : List.Perm q (List.range r)) {l : List Nat} (hl : l.length = r) :
    applyPermN q (applyPermN (invPerm q) l) = l := by
  apply List.ext_getElem
  · rw [applyPermN_length, perm_length hq, hl]
  · intro i h1 h2
    have hir : i < r := by
      rw [applyPermN_length, perm_length hq] at h1
      exact h1
    rw [← getD_eq_getElem_of_lt _ 0 i h1, ← getD_eq_getElem_of_lt _ 0 i h2]
    rw [applyPermN_getD (by rw [perm_length hq]; exact hir)]
    rw [applyPermN_getD (by rw [invPerm_length, perm_length hq]; exact perm_getD_lt hq hir)]
    rw [invPerm_getD_applyq hq hir]

theorem invPerm_nodup {q : List Nat} {r : Nat} (hq : List.Perm q (List.range r)) :
    (invPerm q).Nodup := by
  unfold invPerm
  apply List.Nodup.map_on
  · intro a hal b hbl he
    rw [List.mem_range, perm_length hq] at hal hbl
    have ha := getD_idxOfN ((perm_mem_iff hq a).mpr hal)
    have hb := getD_idxOfN ((perm_mem_iff hq b).mpr hbl)
    rw [← ha, ← hb, he]
  · exact List.nodup_range _

theorem invPerm_invPerm {q : List Nat} {r : Nat} (hq : List.Perm q (List.range r)) :
    invPerm (invPerm q) = q := by
  apply List.ext_getElem
  · rw [invPerm_length, invPerm_length]
  · intro a h1 h2
    have har : a < r := by
      rw [invPerm_length, invPerm_length, perm_length hq] at h1
      exact h1
    rw [← getD_eq_getElem_of_lt _ 0 a h1, ← getD_eq_getElem_of_lt _ 0 a h2]
    have hqa : q.getD a 0 < r := perm_getD_lt hq har
    have hqalen : q.getD a 0 < (invPerm q).length := by
      rw [invPerm_length, perm_length hq]; exact hqa
    have e1 : (invPerm q).getD (q.getD a 0) 0 = a := invPerm_getD_applyq hq har
    have e2 : invPerm (invPerm q) = (List.range (invPerm q).length).map
        (fun b => idxOfN b (invPerm q)) := rfl
    rw [e2, getD_map_of_lt _ _ 0 _ a (by
      simp only [List.length_range]
      rw [invPerm_length, perm_length hq]; exact har)]
    rw [getD_range (by rw [invPerm_length, perm_length hq]; exact har)]
    have h3 := idxOfN_getD (invPerm_nodup hq) (q.getD a 0) hqalen
    rw [e1] at h3
    exact h3

/-! ## The inverse-permutation loop of `transpose_grad` -/

theorem foldl_set_length {α : Type} (pos : Nat → Nat) (val : Nat → α) :
    ∀ (is : List Nat) (acc : List α),
      (is.foldl (fun l i => l.set (pos i) (val i)) acc).length = acc.length := by
  intro is
  induction is with
  | nil => intro acc; rfl
  | cons hd tl ih =>
    intro acc
    rw [List.foldl_cons, ih]
    simp

theorem foldl_set_getD_untouched {α : Type} (pos : Nat → Nat) (val : Nat → α)
    (a : Nat) (d : α) :
    ∀ (is : List Nat) (acc : List α), (∀ i ∈ is, pos i ≠ a) →
      (is.foldl (fun l i => l.set (pos i) (val i)) acc).getD a d = acc.getD a d := by
  intro is
  induction is with
  | nil => intro acc _; rfl
  | cons hd tl ih =>
    intro acc hall
    rw [List.foldl_cons, ih _ (fun i hi => hall i (List.mem_cons_of_mem _ hi))]
    exact getD_set_ne _ _ _ _ _ (hall hd (List.mem_cons_self _ _))

theorem foldl_set_getD_hit {α : Type} (pos : Nat → Nat) (val : Nat → α)
    (a istar : Nat) (d : α) :
    ∀ (is : List Nat) (acc : List α), istar ∈ is →
      (∀ j ∈ is, pos j = a → j = istar) → pos istar = a → a < acc.length →
      (is.foldl (fun l i => l.set (pos i) (val i)) acc).getD a d = val istar := by
  intro is
  induction is with
  | nil => intro acc h; simp at h
  | cons hd tl ih =>
    intro acc hmem huniq hpos hlen
    rw [List.foldl_cons]
    by_cases htl : istar ∈ tl
    · exact ih _ htl (fun j hj => huniq j (List.mem_cons_of_mem _ hj)) hpos
        (by rw [List.length_set]; exact hlen)
    · have hd_eq : hd = istar := by
        rcases List.mem_cons.mp hmem with h1 | h1
        · exact h1.symm
        · exact absurd h1 htl
      rw [foldl_set_getD_untouched pos val a d tl _ ?_]
      · rw [hd_eq, hpos]
        exact getD_set_eq _ _ _ _ hlen
      · intro j hj hpj
        have := huniq j (List.mem_cons_of_mem _ hj) hpj
        rw [this] at hj
        exact absurd hj htl

theorem reversePerm_length (perm : List Int) :
    (reversePerm perm).length = perm.length := by
  unfold reversePerm
  have e : (fun (rp : List Int) (i : Nat) =>
      let pi := perm.getD i 0
      if 0 ≤ pi then rp.set pi.toNat (i : Int) else rp.set (pi + perm.length).toNat (i : Int)) =
      fun rp i => rp.set (normEntry perm.length (perm.getD i 0)) (i : Int) := by
    funext rp i
    show (if 0 ≤ perm.getD i 0 then _ else _) = _
    by_cases hpi : 0 ≤ perm.getD i 0
    · rw [if_pos hpi]
      unfold normEntry
      rw [if_neg (by omega)]
    · rw [if_neg hpi]
      unfold normEntry
      rw [if_pos (by omega)]
  rw [e]
  exact foldl_set_length _ _ _ _

theorem reversePerm_getD {perm : List Int} {a : Nat}
    (hq : List.Perm (normPerm perm.length perm) (List.range perm.length))
    (ha : a < perm.length) :
    (reversePerm perm).getD a 0 = ((idxOfN a (normPerm perm.length perm) : Nat) : Int) := by
  unfold reversePerm
  have e : (fun (rp : List Int) (i : Nat) =>
      let pi := perm.getD i 0
      if 0 ≤ pi then rp.set pi.toNat (i : Int) else rp.set (pi + perm.length).toNat (i : Int)) =
      fun rp i => rp.set (normEntry perm.length (perm.getD i 0)) (i : Int) := by
    funext rp i
    show (if 0 ≤ perm.getD i 0 then _ else _) = _
    by_cases hpi : 0 ≤ perm.getD i 0
    · rw [if_pos hpi]
      unfold normEntry
      rw [if_neg (by omega)]
    · rw [if_neg hpi]
      unfold normEntry
      rw [if_pos (by omega)]
  rw [e]
  set r := perm.length with hr
  set q := normPerm r perm with hqdef
  have hqlen : q.length = r := by rw [hqdef]; unfold normPerm; simp
  have hpos_eq : ∀ i, i < r → normEntry r (perm.getD i 0) = q.getD i 0 := by
    intro i hi
    rw [hqdef]
    unfold normPerm
    rw [getD_map_of_lt _ _ 0 _ i (by rw [← hr]; exact hi)]
  have hamem : a ∈ q := (perm_mem_iff hq a).mpr ha
  have histar : idxOfN a q < r := by
    have := idxOfN_lt_length hamem
    rwa [hqlen] at this
  apply foldl_set_getD_hit (fun i => normEntry r (perm.getD i 0)) (fun i => (i : Int)) a
    (idxOfN a q) 0 (List.range r) perm (List.mem_range.mpr histar)
  · intro j hj hpj
    rw [List.mem_range] at hj
    rw [hpos_eq j hj] at hpj
    have hjq : j < q.length := by rw [hqlen]; exact hj
    have := idxOfN_getD (perm_nodup hq) j hjq
    rw [hpj] at this
    exact this.symm
  · rw [hpos_eq _ histar]
    exact getD_idxOfN hamem
  · exact ha

theorem normPerm_reversePerm {perm : List Int}
    (hq : List.Perm (normPerm perm.length perm) (List.range perm.length)) :
    normPerm perm.length (reversePerm perm) = invPerm (normPerm perm.length perm) := by
  set r := perm.length with hr
  set q := normPerm r perm with hqdef
  have hqlen : q.length = r := by rw [hqdef]; unfold normPerm; simp
  apply List.ext_getElem
  · unfold normPerm
    rw [List.length_map, reversePerm_length, invPerm_length, hqlen]
  · intro a h1 h2
    have har : a < r := by
      unfold normPerm at h1
      rw [List.length_map, reversePerm_length] at h1
      exact h1
    rw [← getD_eq_getElem_of_lt _ 0 a h1, ← getD_eq_getElem_of_lt _ 0 a h2]
    have hrp : a < (reversePerm perm).length := by rw [reversePerm_length]; exact har
    have e1 : (normPerm r (reversePerm perm)).getD a 0 =
        normEntry r ((reversePerm perm).getD a 0) := by
      unfold normPerm
      rw [getD_map_of_lt _ _ 0 _ a hrp]
    rw [e1, reversePerm_getD hq har, invPerm_getD hq har]
    unfold normEntry
    rw [if_neg (by omega)]
    simp

theorem applyPermN_mem_allIndices {q s oi : List Nat} {r : Nat}
    (hq : List.Perm q (List.range r)) (hs : s.length = r)
    (hoi : oi ∈ allIndices s) : applyPermN q oi ∈ allIndices (applyPermN q s) := by
  rw [mem_allIndices] at hoi ⊢
  obtain ⟨hlen, hpt⟩ := forall₂_getD_iff.mp hoi
  rw [forall₂_getD_iff]
  refine ⟨by rw [applyPermN_length, applyPermN_length], ?_⟩
  intro k hk
  rw [applyPermN_length] at hk
  rw [applyPermN_getD hk, applyPermN_getD hk]
  apply hpt
  rw [hlen, hs]
  exact perm_getD_lt hq (by rw [← perm_length hq]; exact hk)

theorem transposeT_roundtrip (t : Tensor) (perm : List Int)
    (hlen : perm.length = t.shape.length)
    (hq : List.Perm (normPerm t.shape.length perm) (List.range t.shape.length))
    (hwf : wellFormed t) :
    transposeT (transposeT t perm) (reversePerm perm) = t := by
  have hqperm : List.Perm (normPerm perm.length perm) (List.range perm.length) := by
    rw [hlen]
    exact hq
  have e1 : transposeT t perm =
      ⟨applyPermN (normPerm t.shape.length perm) t.shape, t.dtype,
        (allIndices (applyPermN (normPerm t.shape.length perm) t.shape)).map
          (fun oi => t.data.getD
            (flatten t.shape (applyPermN (invPerm (normPerm t.shape.length perm)) oi)) 0)⟩ := rfl
  set q := normPerm t.shape.length perm with hqdef
  set t1 := transposeT t perm with ht1def
  have hqlen : q.length = perm.length := by rw [hqdef]; unfold normPerm; simp
  have hshape1 : t1.shape = applyPermN q t.shape := by rw [e1]
  have hdt1 : t1.dtype = t.dtype := by rw [e1]
  have hdata1 : t1.data =
      (allIndices (applyPermN q t.shape)).map
        (fun oi => t.data.getD (flatten t.shape (applyPermN (invPerm q) oi)) 0) := by
    rw [e1]
  have hs1len : (applyPermN q t.shape).length = perm.length := by
    rw [applyPermN_length, hqlen]
  have e2 : transposeT t1 (reversePerm perm) =
      ⟨applyPermN (normPerm t1.shape.length (reversePerm perm)) t1.shape, t1.dtype,
        (allIndices (applyPermN (normPerm t1.shape.length (reversePerm perm)) t1.shape)).map
          (fun oi => t1.data.getD
            (flatten t1.shape
              (applyPermN (invPerm (normPerm t1.shape.length (reversePerm perm))) oi)) 0)⟩ := rfl
  have hq2 : normPerm t1.shape.length (reversePerm perm) = invPerm q := by
    rw [hshape1, hs1len, normPerm_reversePerm hqperm, hqdef, hlen]
  have hshape2 : applyPermN (invPerm q) (applyPermN q t.shape) = t.shape :=
    applyPermN_inv_applyPermN hq rfl
  have hdatafinal :
      (allIndices t.shape).map
        (fun oi => t1.data.getD
          (flatten (applyPermN q t.shape) (applyPermN (invPerm (invPerm q)) oi)) 0) =
      t.data := by
    rw [invPerm_invPerm hq]
    have hcong : ∀ oi ∈ allIndices t.shape,
        t1.data.getD (flatten (applyPermN q t.shape) (applyPermN q oi)) 0 =
        t.data.getD (flatten t.shape oi) 0 := by
      intro oi hoi
      have hmem : applyPermN q oi ∈ allIndices (applyPermN q t.shape) :=
        applyPermN_mem_allIndices hq rfl hoi
      rw [hdata1]
      rw [map_allIndices_getD_flatten _ 0 hmem]
      have holen : oi.length = t.shape.length := (mem_allIndices.mp hoi).length_eq
      rw [applyPermN_inv_applyPermN hq holen]
    rw [List.map_congr_left hcong]
    exact data_eq_map_allIndices hwf
  rw [e2, hq2, hshape1, hshape2, hdt1, hdatafinal]

/-! ## Claim theorems -/

/-- C1: for every pair of broadcast-compatible shapes `(A, B)` (with `B`
broadcasting up to `A`), summing a tensor of shape `A` over the axis set
returned by the broadcast-reduce resolver `reduceAxes A B` (with
`keepdim = false`) and then reshaping yields a well-formed tensor of
exactly shape `B`; and the returned axis set is empty if and only if
`A = B`, so the empty-set identity short-circuit taken by the binary-op
gradient rules (`add_grad`, `divide_grad`, ...) is sound. -/
theorem reduce_axes_sound (A B : List Nat) (t : Tensor) (dt : DType)
    (hB : bcastTo B A) (ht : t.shape = A) (hwf : wellFormed t) :
    (reshapeT (sumAt t (reduceAxes A B) dt false) B).shape = B ∧
    wellFormed (reshapeT (sumAt t (reduceAxes A B) dt false) B) ∧
    (reduceAxes A B = [] ↔ A = B) := by
  refine ⟨rfl, ?_, reduceAxes_nil_iff hB⟩
  show (sumAt t (reduceAxes A B) dt false).data.length = B.prod
  rw [sumAt_data_length, ht, reduceAxes_prod hB]

/-- Witness for C1 at `A = [2,1,3]`, `B = [1,3]`. -/
theorem reduce_axes_sound_witness :
    (reshapeT (sumAt ⟨[2, 1, 3], DType.f32, [1, 2, 3, 4, 5, 6]⟩
        (reduceAxes [2, 1, 3] [1, 3]) DType.f32 false) [1, 3]).shape = [1, 3] ∧
    wellFormed (reshapeT (sumAt ⟨[2, 1, 3], DType.f32, [1, 2, 3, 4, 5, 6]⟩
        (reduceAxes [2, 1, 3] [1, 3]) DType.f32 false) [1, 3]) ∧
    (reduceAxes [2, 1, 3] [1, 3] = [] ↔ [2, 1, 3] = [1, 3]) :=
  reduce_axes_sound [2, 1, 3] [1, 3] ⟨[2, 1, 3], DType.f32, [1, 2, 3, 4, 5, 6]⟩
    DType.f32 (by decide) rfl (by decide)

/-- C2 counterexample: `sin_grad`, `cos_grad` and `gather_grad`, called with
a null output slot (`x_grad = false`), still perform the gradient
computation and invoke `set_output` on the slot: the returned slot value is
`some _`, not `none`.  The claim that every rule leaves an unrequested slot
untouched is therefore false as stated. -/
theorem null_slot_claim_counterexample :
    (sin_grad trivialBackend ⟨[2], DType.f32, [1, 2]⟩ ⟨[2], DType.f32, [3, 4]⟩
      false).isSome = true ∧
    (cos_grad trivialBackend ⟨[2], DType.f32, [1, 2]⟩ ⟨[2], DType.f32, [3, 4]⟩
      false).isSome = true ∧
    (gather_grad ⟨[2], DType.f32, [1, 2]⟩ ⟨[1], DType.f32, [0]⟩
      ⟨[1], DType.f32, [5]⟩ 0 false).isSome = true :=
  ⟨rfl, rfl, rfl⟩

/-- C2 (amended): every embedded rule that guards its output slots with a
null check leaves a null (unrequested) slot untouched and performs no
computation for it; `sin_grad`, `cos_grad` and `gather_grad`, however,
have no such check and unconditionally compute and call `set_output`
even when the slot pointer is null. -/
theorem null_slot_untouched_amended :
    (∀ x g, abs_grad x g false = none) ∧
    (∀ K x y o g a, divide_grad K x y o g a false false = (none, none)) ∧
    (∀ x y g a, add_grad x y g a false false = (none, none)) ∧
    (∀ x g axis kd ra, sum_grad x g axis kd ra false = none) ∧
    (∀ K x g ap, gelu_grad K x g ap false = none) ∧
    (∀ g p, transpose_grad g p false = none) ∧
    (∀ K x sc b m v g e bna,
      layer_norm_grad K x sc b m v g e bna false false false = (none, none, none)) ∧
    (∀ m g p it md, dropout_grad m g p it md false = none) ∧
    (∀ o g, exp_grad o g false = none) ∧
    (∀ K x o g, silu_grad K x o g false = none) ∧
    (∀ x y g, maximum_grad x y g false false = (none, none)) ∧
    (∀ x y g, minimum_grad x y g false false = (none, none)) ∧
    (∀ K x sc m v g e,
      instance_norm_grad K x sc m v g e false false false = (none, none, none)) ∧
    (∀ x o g axis kd ra, max_grad x o g axis kd ra false = none) ∧
    (∀ x i g k a l s, topk_grad x i g k a l s false = none) ∧
    (∀ x o g axis kd ra, prod_grad x o g axis kd ra false = none) ∧
    (∀ K x g, (sin_grad K x g false).isSome = true) ∧
    (∀ K x g, (cos_grad K x g false).isSome = true) ∧
    (∀ x i g a, (gather_grad x i g a false).isSome = true) :=
  ⟨fun _ _ => rfl, fun _ _ _ _ _ _ => rfl, fun _ _ _ _ => rfl,
   fun _ _ _ _ _ => rfl, fun _ _ _ _ => rfl, fun _ _ => rfl,
   fun _ _ _ _ _ _ _ _ _ => rfl, fun _ _ _ _ _ => rfl, fun _ _ => rfl,
   fun _ _ _ _ => rfl, fun _ _ _ => rfl, fun _ _ _ => rfl,
   fun _ _ _ _ _ _ _ => rfl, fun _ _ _ _ _ _ => rfl,
   fun _ _ _ _ _ _ _ => rfl, fun _ _ _ _ _ _ => rfl,
   fun _ _ _ => rfl, fun _ _ _ => rfl, fun _ _ _ _ => rfl⟩

/-- C4 counterexample: `instance_norm_grad` with the optional affine
`scale` input absent and `scale_grad` requested does not skip the
computation: it writes a value into the `scale_grad` slot (substituting a
ones tensor / `x`'s dtype for the missing scale).  The claim that both
normalization rules leave the slot untouched when the affine input is
absent is therefore false for `instance_norm_grad`. -/
theorem instance_norm_absent_scale_counterexample :
    ((instance_norm_grad trivialBackend ⟨[1, 1, 1, 1], DType.f32, [2]⟩ none
        ⟨[1, 1], DType.f32, [0]⟩ ⟨[1, 1], DType.f32, [1]⟩
        ⟨[1, 1, 1, 1], DType.f32, [3]⟩ 0 false true true).2.1).isSome = true ∧
    ((instance_norm_grad trivialBackend ⟨[1, 1, 1, 1], DType.f32, [2]⟩ none
        ⟨[1, 1], DType.f32, [0]⟩ ⟨[1, 1], DType.f32, [1]⟩
        ⟨[1, 1, 1, 1], DType.f32, [3]⟩ 0 false true true).2.2).isSome = true := by
  constructor <;> rfl

/-- C4 (amended): `layer_norm_grad` does skip the `scale_grad`
(resp. `bias_grad`) computation and leaves the slot untouched when the
optional `scale` (resp. `bias`) input is absent; `instance_norm_grad`,
however, computes and writes `scale_grad` and `bias_grad` even when
`scale` is absent (it has no optional bias input at all and substitutes a
ones tensor and `x`'s dtype for the missing scale). -/
theorem layer_norm_absent_affine_skips :
    (∀ K x b m v g e bna xg bg,
      (layer_norm_grad K x none b m v g e bna xg true bg).2.1 = none) ∧
    (∀ K x sc m v g e bna xg sg,
      (layer_norm_grad K x sc none m v g e bna xg sg true).2.2 = none) ∧
    (∀ K x m v g e xg bg,
      ((instance_norm_grad K x none m v g e xg true bg).2.1).isSome = true) :=
  ⟨fun _ _ _ _ _ _ _ _ _ _ => rfl, fun _ _ _ _ _ _ _ _ _ _ => rfl,
   fun K x m v g e xg bg => by
    unfold instance_norm_grad
    by_cases h : x.dtype = DType.f16 ∨ x.dtype = DType.bf16
    · simp [h]
    · simp [h]⟩

/-- C5: the gradient outputs of `sum_grad`, `prod_grad` and `max_grad` are
completely independent of the incoming value of the `reduce_all`
parameter: each rule locally overwrites it before first use and recomputes
it from the axis list's cardinality alone, so calls with
`reduce_all = true` and `reduce_all = false` produce identical outputs. -/
theorem reduce_all_parameter_ignored :
    (∀ x g axis kd xg,
      sum_grad x g axis kd true xg = sum_grad x g axis kd false xg) ∧
    (∀ x o g axis kd xg,
      prod_grad x o g axis kd true xg = prod_grad x o g axis kd false xg) ∧
    (∀ x o g axis kd xg,
      max_grad x o g axis kd true xg = max_grad x o g axis kd false xg) :=
  ⟨fun _ _ _ _ _ => rfl, fun _ _ _ _ _ _ => rfl, fun _ _ _ _ _ _ => rfl⟩

/-- C10: when the input tensor `x` has rank 0, `topk_grad` does not build
a zero tensor and scatter into it: it copies `out_grad` verbatim into the
`x_grad` slot, so the returned gradient equals the incoming output
gradient unchanged. -/
theorem topk_grad_zero_rank (x indices g : Tensor) (k axis : Int)
    (largest sorted : Bool) (hx : x.shape = []) :
    topk_grad x indices g k axis largest sorted true = some g := by
  unfold topk_grad
  rw [if_pos rfl, hx]
  rfl

/-- Witness for C10 at a rank-0 input. -/
theorem topk_grad_zero_rank_witness :
    topk_grad ⟨[], DType.f32, [7]⟩ ⟨[], DType.f32, [0]⟩ ⟨[], DType.f32, [9]⟩
      1 0 true true true = some ⟨[], DType.f32, [9]⟩ :=
  topk_grad_zero_rank ⟨[], DType.f32, [7]⟩ ⟨[], DType.f32, [0]⟩
    ⟨[], DType.f32, [9]⟩ 1 0 true true rfl

/-- C9: for the multi-output rules, the numeric value written to a
requested (non-null) slot is identical whichever of the other slots are
requested: skipping an unused output never changes a requested one, even
when outputs share intermediates (`x_hat`/`std_inv` in
`instance_norm_grad`, `x_sub_mean_mul_sqrt_var_1` in `layer_norm_grad`). -/
theorem requested_slots_independent :
    (∀ K x y o g a b b2,
      (divide_grad K x y o g a true b).1 = (divide_grad K x y o g a true b2).1) ∧
    (∀ K x y o g a b b2,
      (divide_grad K x y o g a b true).2 = (divide_grad K x y o g a b2 true).2) ∧
    (∀ K x sc bi m v g e bna s1 b1 s2 b2,
      (layer_norm_grad K x sc bi m v g e bna true s1 b1).1 =
        (layer_norm_grad K x sc bi m v g e bna true s2 b2).1) ∧
    (∀ K x sc bi m v g e bna a1 b1 a2 b2,
      (layer_norm_grad K x sc bi m v g e bna a1 true b1).2.1 =
        (layer_norm_grad K x sc bi m v g e bna a2 true b2).2.1) ∧
    (∀ K x sc bi m v g e bna a1 s1 a2 s2,
      (layer_norm_grad K x sc bi m v g e bna a1 s1 true).2.2 =
        (layer_norm_grad K x sc bi m v g e bna a2 s2 true).2.2) ∧
    (∀ K x sc m v g e s1 b1 s2 b2,
      (instance_norm_grad K x sc m v g e true s1 b1).1 =
        (instance_norm_grad K x sc m v g e true s2 b2).1) ∧
    (∀ K x sc m v g e a1 b1 a2 b2,
      (instance_norm_grad K x sc m v g e a1 true b1).2.1 =
        (instance_norm_grad K x sc m v g e a2 true b2).2.1) ∧
    (∀ K x sc m v g e a1 s1 a2 s2,
      (instance_norm_grad K x sc m v g e a1 s1 true).2.2 =
        (instance_norm_grad K x sc m v g e a2 s2 true).2.2) ∧
    (∀ x y g b b2, (maximum_grad x y g true b).1 = (maximum_grad x y g true b2).1) ∧
    (∀ x y g b b2, (maximum_grad x y g b true).2 = (maximum_grad x y g b2 true).2) ∧
    (∀ x y g b b2, (minimum_grad x y g true b).1 = (minimum_grad x y g true b2).1) ∧
    (∀ x y g b b2, (minimum_grad x y g b true).2 = (minimum_grad x y g b2 true).2) :=
  ⟨fun _ _ _ _ _ _ _ _ => rfl, fun _ _ _ _ _ _ _ _ => rfl,
   fun _ _ _ _ _ _ _ _ _ _ _ _ _ => rfl, fun _ _ _ _ _ _ _ _ _ _ _ _ _ => rfl,
   fun _ _ _ _ _ _ _ _ _ _ _ _ _ => rfl,
   fun K x sc m v g e s1 b1 s2 b2 => by cases s1 <;> cases s2 <;> rfl,
   fun K x sc m v g e a1 b1 a2 b2 => by cases a1 <;> cases a2 <;> rfl,
   fun _ _ _ _ _ _ _ _ _ _ _ => rfl,
   fun _ _ _ _ _ => rfl, fun _ _ _ _ _ => rfl, fun _ _ _ _ _ => rfl,
   fun _ _ _ _ _ => rfl⟩

/-- C3: `dropout_grad` implements exactly the five-case state machine on
`(is_test, mode, p)`: (test, upscale_in_train) passes `out_grad` through
unchanged; (test, other) multiplies by `1 - p`; (train, upscale_in_train)
with `p = 1` returns an all-zero gradient; (train, upscale_in_train) with
`p < 1` returns `mask * out_grad / (1 - p)`; (train, other) returns
`mask * out_grad` with no rescaling. -/
theorem dropout_grad_state_machine (mask g : Tensor) (p : Rat) (mode : String)
    (hs : mask.shape = g.shape) (hwfg : wellFormed g) :
    (dropout_grad mask g p true "upscale_in_train" true = some g) ∧
    (mode ≠ "upscale_in_train" →
      ∃ t, dropout_grad mask g p true mode true = some t ∧ t.shape = g.shape ∧
        ∀ k, k < g.shape.prod → t.data.getD k 0 = g.data.getD k 0 * (1 - p)) ∧
    (p = 1 →
      ∃ t, dropout_grad mask g p false "upscale_in_train" true = some t ∧
        t.shape = g.shape ∧ ∀ v ∈ t.data, v = 0) ∧
    (p < 1 →
      ∃ t, dropout_grad mask g p false "upscale_in_train" true = some t ∧
        t.shape = g.shape ∧
        ∀ k, k < g.shape.prod →
          t.data.getD k 0 = mask.data.getD k 0 * g.data.getD k 0 / (1 - p)) ∧
    (mode ≠ "upscale_in_train" →
      ∃ t, dropout_grad mask g p false mode true = some t ∧ t.shape = g.shape ∧
        ∀ k, k < g.shape.prod →
          t.data.getD k 0 = mask.data.getD k 0 * g.data.getD k 0) := by
  have hcast : (castT mask g.dtype).shape = g.shape := hs
  have hmul_shape : (mulT g (castT mask g.dtype)).shape = g.shape :=
    ew2_shape rfl hcast
  have hmul_len : (mulT g (castT mask g.dtype)).data.length = g.shape.prod :=
    ew2_data_length rfl hcast
  have hmul_getD : ∀ k, k < g.shape.prod →
      (mulT g (castT mask g.dtype)).data.getD k 0 =
        g.data.getD k 0 * mask.data.getD k 0 := by
    intro k hk
    exact ew2_data_getD rfl hcast hk
  refine ⟨rfl, ?_, ?_, ?_, ?_⟩
  · intro hmode
    refine ⟨ewMap (fun v => v * (1 - p)) g, ?_, rfl, ?_⟩
    · simp [dropout_grad, hmode]
    · intro k hk
      exact ewMap_data_getD (by rw [hwfg]; exact hk)
  · intro hp
    refine ⟨scaleT g 0 0 true, ?_, rfl, ?_⟩
    · simp [dropout_grad, hp]
    · intro v hv
      simp only [scaleT, ewMap, List.mem_map] at hv
      obtain ⟨a, _, hva⟩ := hv
      rw [← hva]
      simp
  · intro hp
    refine ⟨scaleT (mulT g (castT mask g.dtype)) (1 / (1 - p)) 0 true, ?_, hmul_shape, ?_⟩
    · simp [dropout_grad, ne_of_lt hp]
    · intro k hk
      have h1 : (scaleT (mulT g (castT mask g.dtype)) (1 / (1 - p)) 0 true).data.getD k 0 =
          if (true : Bool) = true then
            (1 / (1 - p)) * ((mulT g (castT mask g.dtype)).data.getD k 0) + 0
          else (1 / (1 - p)) * (((mulT g (castT mask g.dtype)).data.getD k 0) + 0) :=
        ewMap_data_getD (by rw [hmul_len]; exact hk)
      rw [h1, hmul_getD k hk, if_pos rfl]
      ring
  · intro hmode
    refine ⟨mulT g (castT mask g.dtype), ?_, hmul_shape, ?_⟩
    · simp [dropout_grad, hmode]
    · intro k hk
      rw [hmul_getD k hk]
      ring

/-- Witness for C3 with `p = 1/2` and `p = 1`, `mask = [1,0,1,1]`. -/
theorem dropout_grad_state_machine_witness :
    (dropout_grad ⟨[4], DType.f32, [1, 0, 1, 1]⟩ ⟨[4], DType.f32, [5, 6, 7, 8]⟩
      (1 / 2) true "upscale_in_train" true = some ⟨[4], DType.f32, [5, 6, 7, 8]⟩) ∧
    (∃ t, dropout_grad ⟨[4], DType.f32, [1, 0, 1, 1]⟩ ⟨[4], DType.f32, [5, 6, 7, 8]⟩
        (1 / 2) true "downscale_in_infer" true = some t ∧
      t.shape = ([4] : List Nat) ∧
      ∀ k, k < ([4] : List Nat).prod →
        t.data.getD k 0 = (⟨[4], DType.f32, [5, 6, 7, 8]⟩ : Tensor).data.getD k 0 * (1 - 1 / 2)) ∧
    (∃ t, dropout_grad ⟨[4], DType.f32, [1, 0, 1, 1]⟩ ⟨[4], DType.f32, [5, 6, 7, 8]⟩
        1 false "upscale_in_train" true = some t ∧
      t.shape = ([4] : List Nat) ∧ ∀ v ∈ t.data, v = 0) ∧
    (∃ t, dropout_grad ⟨[4], DType.f32, [1, 0, 1, 1]⟩ ⟨[4], DType.f32, [5, 6, 7, 8]⟩
        (1 / 2) false "upscale_in_train" true = some t ∧
      t.shape = ([4] : List Nat) ∧
      ∀ k, k < ([4] : List Nat).prod →
        t.data.getD k 0 = (⟨[4], DType.f32, [1, 0, 1, 1]⟩ : Tensor).data.getD k 0 *
          (⟨[4], DType.f32, [5, 6, 7, 8]⟩ : Tensor).data.getD k 0 / (1 - 1 / 2)) ∧
    (∃ t, dropout_grad ⟨[4], DType.f32, [1, 0, 1, 1]⟩ ⟨[4], DType.f32, [5, 6, 7, 8]⟩
        (1 / 2) false "downscale_in_infer" true = some t ∧
      t.shape = ([4] : List Nat) ∧
      ∀ k, k < ([4] : List Nat).prod →
        t.data.getD k 0 = (⟨[4], DType.f32, [1, 0, 1, 1]⟩ : Tensor).data.getD k 0 *
          (⟨[4], DType.f32, [5, 6, 7, 8]⟩ : Tensor).data.getD k 0) :=
  ⟨(dropout_grad_state_machine ⟨[4], DType.f32, [1, 0, 1, 1]⟩
      ⟨[4], DType.f32, [5, 6, 7, 8]⟩ (1 / 2) "downscale_in_infer" rfl rfl).1,
   (dropout_grad_state_machine ⟨[4], DType.f32, [1, 0, 1, 1]⟩
      ⟨[4], DType.f32, [5, 6, 7, 8]⟩ (1 / 2) "downscale_in_infer" rfl rfl).2.1 (by decide),
   (dropout_grad_state_machine ⟨[4], DType.f32, [1, 0, 1, 1]⟩
      ⟨[4], DType.f32, [5, 6, 7, 8]⟩ 1 "downscale_in_infer" rfl rfl).2.2.1 rfl,
   (dropout_grad_state_machine ⟨[4], DType.f32, [1, 0, 1, 1]⟩
      ⟨[4], DType.f32, [5, 6, 7, 8]⟩ (1 / 2) "downscale_in_infer" rfl rfl).2.2.2.1 (by norm_num),
   (dropout_grad_state_machine ⟨[4], DType.f32, [1, 0, 1, 1]⟩
      ⟨[4], DType.f32, [5, 6, 7, 8]⟩ (1 / 2) "downscale_in_infer" rfl rfl).2.2.2.2 (by decide)⟩

/-- C6: `maximum_grad` masks the x branch with the strict comparison
`x > y` and the y branch with the non-strict `x <= y`; `minimum_grad`
mirrors this with `x < y` and `x >= y`.  At every element position the two
masks are complementary (they sum to 1), so the two returned gradients sum
to `out_grad` elementwise, and at tied positions (`x = y`) exactly one
branch (the y branch) receives `out_grad`: ties are never double-counted. -/
theorem maximum_minimum_grad_tie_split (x y g : Tensor) (s : List Nat)
    (hx : x.shape = s) (hy : y.shape = s) (hg : g.shape = s) :
    (∀ k, k < s.prod →
      (greater_thanT x y).data.getD k 0 + (less_equalT x y).data.getD k 0 = 1 ∧
      (less_thanT x y).data.getD k 0 + (greater_equalT x y).data.getD k 0 = 1) ∧
    (∃ dx dy, maximum_grad x y g true true = (some dx, some dy) ∧
      ∀ k, k < s.prod →
        dx.data.getD k 0 + dy.data.getD k 0 = g.data.getD k 0 ∧
        (x.data.getD k 0 = y.data.getD k 0 →
          dx.data.getD k 0 = 0 ∧ dy.data.getD k 0 = g.data.getD k 0)) ∧
    (∃ dx dy, minimum_grad x y g true true = (some dx, some dy) ∧
      ∀ k, k < s.prod →
        dx.data.getD k 0 + dy.data.getD k 0 = g.data.getD k 0 ∧
        (x.data.getD k 0 = y.data.getD k 0 →
          dx.data.getD k 0 = 0 ∧ dy.data.getD k 0 = g.data.getD k 0)) := by
  have hyx : ¬ (y.shape ≠ x.shape) := by rw [hx, hy]; exact fun h => h rfl
  have hxy : ¬ (x.shape ≠ y.shape) := by rw [hx, hy]; exact fun h => h rfl
  have hsh_gt : (castT (greater_thanT x y) g.dtype).shape = s :=
    @ew2_shape (fun u v => if v < u then 1 else 0) x y s hx hy
  have hsh_le : (castT (less_equalT x y) g.dtype).shape = s :=
    @ew2_shape (fun u v => if u ≤ v then 1 else 0) x y s hx hy
  have hsh_lt : (castT (less_thanT x y) g.dtype).shape = s :=
    @ew2_shape (fun u v => if u < v then 1 else 0) x y s hx hy
  have hsh_ge : (castT (greater_equalT x y) g.dtype).shape = s :=
    @ew2_shape (fun u v => if v ≤ u then 1 else 0) x y s hx hy
  have hval_gt : ∀ k, k < s.prod →
      (mulT g (castT (greater_thanT x y) g.dtype)).data.getD k 0 =
        g.data.getD k 0 * (if y.data.getD k 0 < x.data.getD k 0 then 1 else 0) := by
    intro k hk
    have h2 : (mulT g (castT (greater_thanT x y) g.dtype)).data.getD k 0 =
        g.data.getD k 0 * ((castT (greater_thanT x y) g.dtype).data.getD k 0) :=
      ew2_data_getD hg hsh_gt hk
    rw [h2]
    congr 1
    exact @ew2_data_getD (fun u v => if v < u then 1 else 0) x y s hx hy k hk
  have hval_le : ∀ k, k < s.prod →
      (mulT g (castT (less_equalT x y) g.dtype)).data.getD k 0 =
        g.data.getD k 0 * (if x.data.getD k 0 ≤ y.data.getD k 0 then 1 else 0) := by
    intro k hk
    have h2 : (mulT g (castT (less_equalT x y) g.dtype)).data.getD k 0 =
        g.data.getD k 0 * ((castT (less_equalT x y) g.dtype).data.getD k 0) :=
      ew2_data_getD hg hsh_le hk
    rw [h2]
    congr 1
    exact @ew2_data_getD (fun u v => if u ≤ v then 1 else 0) x y s hx hy k hk
  have hval_lt : ∀ k, k < s.prod →
      (mulT g (castT (less_thanT x y) g.dtype)).data.getD k 0 =
        g.data.getD k 0 * (if x.data.getD k 0 < y.data.getD k 0 then 1 else 0) := by
    intro k hk
    have h2 : (mulT g (castT (less_thanT x y) g.dtype)).data.getD k 0 =
        g.data.getD k 0 * ((castT (less_thanT x y) g.dtype).data.getD k 0) :=
      ew2_data_getD hg hsh_lt hk
    rw [h2]
    congr 1
    exact @ew2_data_getD (fun u v => if u < v then 1 else 0) x y s hx hy k hk
  have hval_ge : ∀ k, k < s.prod →
      (mulT g (castT (greater_equalT x y) g.dtype)).data.getD k 0 =
        g.data.getD k 0 * (if y.data.getD k 0 ≤ x.data.getD k 0 then 1 else 0) := by
    intro k hk
    have h2 : (mulT g (castT (greater_equalT x y) g.dtype)).data.getD k 0 =
        g.data.getD k 0 * ((castT (greater_equalT x y) g.dtype).data.getD k 0) :=
      ew2_data_getD hg hsh_ge hk
    rw [h2]
    congr 1
    exact @ew2_data_getD (fun u v => if v ≤ u then 1 else 0) x y s hx hy k hk
  refine ⟨?_, ?_, ?_⟩
  · intro k hk
    have h1 : (greater_thanT x y).data.getD k 0 =
        (if y.data.getD k 0 < x.data.getD k 0 then (1 : Rat) else 0) :=
      @ew2_data_getD (fun u v => if v < u then 1 else 0) x y s hx hy k hk
    have h2 : (less_equalT x y).data.getD k 0 =
        (if x.data.getD k 0 ≤ y.data.getD k 0 then (1 : Rat) else 0) :=
      @ew2_data_getD (fun u v => if u ≤ v then 1 else 0) x y s hx hy k hk
    have h3 : (less_thanT x y).data.getD k 0 =
        (if x.data.getD k 0 < y.data.getD k 0 then (1 : Rat) else 0) :=
      @ew2_data_getD (fun u v => if u < v then 1 else 0) x y s hx hy k hk
    have h4 : (greater_equalT x y).data.getD k 0 =
        (if y.data.getD k 0 ≤ x.data.getD k 0 then (1 : Rat) else 0) :=
      @ew2_data_getD (fun u v => if v ≤ u then 1 else 0) x y s hx hy k hk
    rw [h1, h2, h3, h4]
    constructor
    · rcases le_or_lt (x.data.getD k 0) (y.data.getD k 0) with h | h
      · rw [if_neg (not_lt.mpr h), if_pos h]; norm_num
      · rw [if_pos h, if_neg (not_le.mpr h)]; norm_num
    · rcases le_or_lt (y.data.getD k 0) (x.data.getD k 0) with h | h
      · rw [if_neg (not_lt.mpr h), if_pos h]; norm_num
      · rw [if_pos h, if_neg (not_le.mpr h)]; norm_num
  · refine ⟨mulT g (castT (greater_thanT x y) g.dtype),
      mulT g (castT (less_equalT x y) g.dtype), ?_, ?_⟩
    · simp [maximum_grad, hyx, hxy]
    · intro k hk
      rw [hval_gt k hk, hval_le k hk]
      constructor
      · rcases le_or_lt (x.data.getD k 0) (y.data.getD k 0) with h | h
        · rw [if_neg (not_lt.mpr h), if_pos h]; ring
        · rw [if_pos h, if_neg (not_le.mpr h)]; ring
      · intro htie
        rw [htie]
        rw [if_neg (lt_irrefl _), if_pos (le_refl _)]
        constructor <;> ring
  · refine ⟨mulT g (castT (less_thanT x y) g.dtype),
      mulT g (castT (greater_equalT x y) g.dtype), ?_, ?_⟩
    · simp [minimum_grad, hyx, hxy]
    · intro k hk
      rw [hval_lt k hk, hval_ge k hk]
      constructor
      · rcases le_or_lt (y.data.getD k 0) (x.data.getD k 0) with h | h
        · rw [if_neg (not_lt.mpr h), if_pos h]; ring
        · rw [if_pos h, if_neg (not_le.mpr h)]; ring
      · intro htie
        rw [htie]
        rw [if_neg (lt_irrefl _), if_pos (le_refl _)]
        constructor <;> ring

/-- Witness for C6 at `x = [1,2,2]`, `y = [2,2,1]`, `g = [10,20,30]`
(position 1 is a tie). -/
theorem maximum_minimum_grad_tie_split_witness :
    (∀ k, k < ([3] : List Nat).prod →
      (greater_thanT ⟨[3], DType.f32, [1, 2, 2]⟩ ⟨[3], DType.f32, [2, 2, 1]⟩).data.getD k 0 +
        (less_equalT ⟨[3], DType.f32, [1, 2, 2]⟩ ⟨[3], DType.f32, [2, 2, 1]⟩).data.getD k 0 = 1 ∧
      (less_thanT ⟨[3], DType.f32, [1, 2, 2]⟩ ⟨[3], DType.f32, [2, 2, 1]⟩).data.getD k 0 +
        (greater_equalT ⟨[3], DType.f32, [1, 2, 2]⟩ ⟨[3], DType.f32, [2, 2, 1]⟩).data.getD k 0 = 1) ∧
    (∃ dx dy, maximum_grad ⟨[3], DType.f32, [1, 2, 2]⟩ ⟨[3], DType.f32, [2, 2, 1]⟩
        ⟨[3], DType.f32, [10, 20, 30]⟩ true true = (some dx, some dy) ∧
      ∀ k, k < ([3] : List Nat).prod →
        dx.data.getD k 0 + dy.data.getD k 0 =
          (⟨[3], DType.f32, [10, 20, 30]⟩ : Tensor).data.getD k 0 ∧
        ((⟨[3], DType.f32, [1, 2, 2]⟩ : Tensor).data.getD k 0 =
            (⟨[3], DType.f32, [2, 2, 1]⟩ : Tensor).data.getD k 0 →
          dx.data.getD k 0 = 0 ∧
          dy.data.getD k 0 = (⟨[3], DType.f32, [10, 20, 30]⟩ : Tensor).data.getD k 0)) ∧
    (∃ dx dy, minimum_grad ⟨[3], DType.f32, [1, 2, 2]⟩ ⟨[3], DType.f32, [2, 2, 1]⟩
        ⟨[3], DType.f32, [10, 20, 30]⟩ true true = (some dx, some dy) ∧
      ∀ k, k < ([3] : List Nat).prod →
        dx.data.getD k 0 + dy.data.getD k 0 =
          (⟨[3], DType.f32, [10, 20, 30]⟩ : Tensor).data.getD k 0 ∧
        ((⟨[3], DType.f32, [1, 2, 2]⟩ : Tensor).data.getD k 0 =
            (⟨[3], DType.f32, [2, 2, 1]⟩ : Tensor).data.getD k 0 →
          dx.data.getD k 0 = 0 ∧
          dy.data.getD k 0 = (⟨[3], DType.f32, [10, 20, 30]⟩ : Tensor).data.getD k 0)) :=
  maximum_minimum_grad_tie_split ⟨[3], DType.f32, [1, 2, 2]⟩ ⟨[3], DType.f32, [2, 2, 1]⟩
    ⟨[3], DType.f32, [10, 20, 30]⟩ [3] rfl rfl rfl

/-- C7: for the promotion-policy rules (`gelu_grad`, `exp_grad`,
`silu_grad`, `layer_norm_grad`, `instance_norm_grad`), when the forward
input's element datatype is float16 or bfloat16 the rule casts its operands
to float32 before the gradient arithmetic and casts the final gradient back,
so the datatype of the written gradient always equals the input's datatype. -/
theorem mixed_precision_promotion (K : Backend) :
    (∀ x g approx, x.dtype = DType.f16 ∨ x.dtype = DType.bf16 →
      (gelu_grad K x g approx true).map Tensor.dtype = some x.dtype) ∧
    (∀ o g, o.dtype = DType.f16 ∨ o.dtype = DType.bf16 →
      (exp_grad o g true).map Tensor.dtype = some o.dtype) ∧
    (∀ x o g, x.dtype = DType.f16 ∨ x.dtype = DType.bf16 →
      (silu_grad K x o g true).map Tensor.dtype = some x.dtype) ∧
    (∀ x sc b m v g e bna sg bg, x.dtype = DType.f16 ∨ x.dtype = DType.bf16 →
      ((layer_norm_grad K x sc b m v g e bna true sg bg).1).map Tensor.dtype = some x.dtype) ∧
    (∀ x sc m v g e sg bg, x.dtype = DType.f16 ∨ x.dtype = DType.bf16 →
      ((instance_norm_grad K x sc m v g e true sg bg).1).map Tensor.dtype = some x.dtype) := by
  refine ⟨?_, ?_, ?_, ?_, ?_⟩
  · intro x g approx hdt
    rcases hdt with h | h <;> cases approx <;> simp [gelu_grad, h, castT]
  · intro o g hdt
    rcases hdt with h | h <;> simp [exp_grad, h, castT]
  · intro x o g hdt
    rcases hdt with h | h <;> simp [silu_grad, h, castT]
  · intro x sc b m v g e bna sg bg hdt
    rcases hdt with h | h <;> simp [layer_norm_grad, h, castT]
  · intro x sc m v g e sg bg hdt
    rcases hdt with h | h <;> simp [instance_norm_grad, h, castT]

/-- Witness for C7 at float16 inputs. -/
theorem mixed_precision_promotion_witness :
    ((gelu_grad trivialBackend ⟨[1], DType.f16, [1]⟩ ⟨[1], DType.f16, [2]⟩
        true true).map Tensor.dtype = some DType.f16) ∧
    ((exp_grad ⟨[1], DType.bf16, [1]⟩ ⟨[1], DType.bf16, [2]⟩ true).map Tensor.dtype =
        some DType.bf16) ∧
    ((silu_grad trivialBackend ⟨[1], DType.f16, [1]⟩ ⟨[1], DType.f16, [1]⟩
        ⟨[1], DType.f16, [2]⟩ true).map Tensor.dtype = some DType.f16) ∧
    ((layer_norm_grad trivialBackend ⟨[2], DType.f16, [1, 2]⟩ none none
        ⟨[1], DType.f16, [0]⟩ ⟨[1], DType.f16, [1]⟩ ⟨[2], DType.f16, [1, 1]⟩ 0 0
        true false false).1.map Tensor.dtype = some DType.f16) ∧
    ((instance_norm_grad trivialBackend ⟨[1, 1, 1, 1], DType.f16, [2]⟩ none
        ⟨[1, 1], DType.f16, [0]⟩ ⟨[1, 1], DType.f16, [1]⟩
        ⟨[1, 1, 1, 1], DType.f16, [3]⟩ 0 true false false).1.map Tensor.dtype =
        some DType.f16) :=
  ⟨(mixed_precision_promotion trivialBackend).1 ⟨[1], DType.f16, [1]⟩
      ⟨[1], DType.f16, [2]⟩ true (Or.inl rfl),
   (mixed_precision_promotion trivialBackend).2.1 ⟨[1], DType.bf16, [1]⟩
      ⟨[1], DType.bf16, [2]⟩ (Or.inr rfl),
   (mixed_precision_promotion trivialBackend).2.2.1 ⟨[1], DType.f16, [1]⟩
      ⟨[1], DType.f16, [1]⟩ ⟨[1], DType.f16, [2]⟩ (Or.inl rfl),
   (mixed_precision_promotion trivialBackend).2.2.2.1 ⟨[2], DType.f16, [1, 2]⟩ none none
      ⟨[1], DType.f16, [0]⟩ ⟨[1], DType.f16, [1]⟩ ⟨[2], DType.f16, [1, 1]⟩ 0 0
      false false (Or.inl rfl),
   (mixed_precision_promotion trivialBackend).2.2.2.2 ⟨[1, 1, 1, 1], DType.f16, [2]⟩ none
      ⟨[1, 1], DType.f16, [0]⟩ ⟨[1, 1], DType.f16, [1]⟩ ⟨[1, 1, 1, 1], DType.f16, [3]⟩ 0
      false false (Or.inl rfl)⟩

/-- C8: for every permutation array `perm` (entries possibly negative,
normalised by adding the rank), the `reverse_perm` computed by
`transpose_grad` is the inverse permutation of the normalised `perm`
(`reverse_perm (perm i) = i`), so applying the forward transpose with
`perm` and then `transpose_grad` with the same `perm` to the transposed
tensor recovers the original tensor exactly. -/
theorem transpose_grad_inverse (t : Tensor) (perm : List Int)
    (hlen : perm.length = t.shape.length)
    (hq : List.Perm (normPerm t.shape.length perm) (List.range t.shape.length))
    (hwf : wellFormed t) :
    transpose_grad (transposeT t perm) perm true = some t ∧
    (∀ i, i < t.shape.length →
      (reversePerm perm).getD ((normPerm t.shape.length perm).getD i 0) 0 = (i : Int)) := by
  constructor
  · show some (transposeT (transposeT t perm) (reversePerm perm)) = some t
    rw [transposeT_roundtrip t perm hlen hq hwf]
  · rw [← hlen] at hq ⊢
    intro i hi
    have ha : (normPerm perm.length perm).getD i 0 < perm.length := perm_getD_lt hq hi
    rw [reversePerm_getD hq ha]
    have hi' : i < (normPerm perm.length perm).length := by
      rw [perm_length hq]; exact hi
    rw [idxOfN_getD (perm_nodup hq) i hi']

/-- Witness for C8 at a rank-2 tensor with `perm = [1, -2]` (one negative
entry). -/
theorem transpose_grad_inverse_witness :
    transpose_grad (transposeT ⟨[2, 3], DType.f32, [1, 2, 3, 4, 5, 6]⟩ [1, -2])
      [1, -2] true = some ⟨[2, 3], DType.f32, [1, 2, 3, 4, 5, 6]⟩ ∧
    (∀ i, i < (⟨[2, 3], DType.f32, [1, 2, 3, 4, 5, 6]⟩ : Tensor).shape.length →
      (reversePerm [1, -2]).getD
        ((normPerm (⟨[2, 3], DType.f32, [1, 2, 3, 4, 5, 6]⟩ : Tensor).shape.length
          [1, -2]).getD i 0) 0 = (i : Int)) :=
  transpose_grad_inverse ⟨[2, 3], DType.f32, [1, 2, 3, 4, 5, 6]⟩ [1, -2] rfl
    (by decide) rfl
